import Mathlib

/-!
Verification development for the prompt-orchestration and task-execution
subsystem of a migration-job web service (Python sources under `src/`).

The Python code is shallowly embedded: strings are `List Char` where character
level reasoning is needed (template substitution) and `String` elsewhere;
dictionaries are association lists or functions; the file system is an
abstract record of decidable predicates; the external subprocess and the
per-prompt execution are oracles passed as function parameters.  Wall-clock
timestamps are omitted from embedded records (they are opaque strings supplied
by the caller where they matter for identity).
-/

namespace CodeConv

/-! ## Variable substitution — `ExecutionService._substitute_variables`
(`src/v2/services/execution_service.py`, lines 254-267)

The Python code is:

    variables = re.findall(r'\x7b\x7b(\w+)\x7d\x7d', content)
    for var in variables:
        value = context.get(var, f'[\x7bvar\x7d]')
        content = content.replace('\x7b\x7b' + var + '\x7d\x7d', str(value))
    return content

`findVars` embeds the `re.findall` scan (leftmost, non-overlapping, greedy
matches of the placeholder pattern), `strReplace` embeds Python `str.replace`
(replace every non-overlapping occurrence, scanning left to right), and
`substituteVariables` embeds the loop.  Word characters follow the ASCII core
of the regex class `\w`. -/

/-- ASCII word character, the `\w` class of the placeholder regex. -/
def isWordChar (c : Char) : Bool := c.isAlphanum || c = '_'

/-- The literal placeholder text for key `v`: two opening braces, the key,
two closing braces. -/
def tokOf (v : List Char) : List Char := '{' :: '{' :: (v ++ ['}', '}'])

/-- The bracketed fallback text `[v]` substituted for keys absent from the
context. -/
def brkOf (v : List Char) : List Char := '[' :: (v ++ [']'])

/-- Greedy match of the placeholder regex at the head of the input: on
success, returns the captured key and the remainder after the match. -/
def matchTok (s : List Char) : Option (List Char × List Char) :=
  match s with
  | c1 :: c2 :: rest =>
    if c1 = '{' ∧ c2 = '{' then
      match rest.dropWhile isWordChar with
      | d1 :: d2 :: r =>
        if d1 = '}' ∧ d2 = '}' ∧ rest.takeWhile isWordChar ≠ [] then
          some (rest.takeWhile isWordChar, r)
        else none
      | _ => none
    else none
  | _ => none

/-- A segment of template text as seen by the scanner: a literal character, a
placeholder occurrence `\x7b\x7bv\x7d\x7d`, or text inserted by an earlier
replacement. -/
inductive Seg
  | raw (c : Char)
  | tk (v : List Char)
  | ins (x : List Char)
deriving DecidableEq

/-- The text of one segment. -/
def Seg.render : Seg → List Char
  | raw c => [c]
  | tk v => tokOf v
  | ins x => x

/-- The text of a segment list. -/
def renderSegs : List Seg → List Char
  | [] => []
  | s :: L => s.render ++ renderSegs L

/-- Fueled scanner: at each position, take the greedy placeholder match if one
starts there, otherwise consume one literal character.  The fuel is an upper
bound on the input length, so `parseTemplate` below always has enough. -/
def parseGo : Nat → List Char → List Seg
  | _, [] => []
  | 0, s => s.map Seg.raw
  | fuel + 1, c :: cs =>
    match matchTok (c :: cs) with
    | some (v, r) => .tk v :: parseGo fuel r
    | none => .raw c :: parseGo fuel cs

/-- Leftmost non-overlapping scan for placeholder occurrences: the behaviour
of `re.findall` over a template, keeping the surrounding literal text. -/
def parseTemplate (s : List Char) : List Seg := parseGo s.length s

/-- The keys of the placeholder segments, in order (with multiplicity). -/
def varsOfSegs : List Seg → List (List Char)
  | [] => []
  | .tk v :: L => v :: varsOfSegs L
  | .raw _ :: L => varsOfSegs L
  | .ins _ :: L => varsOfSegs L

/-- `re.findall(r'...(\w+)...', content)`: the captured keys of all matches,
in match order. -/
def findVars (s : List Char) : List (List Char) := varsOfSegs (parseTemplate s)

/-- Fueled core of Python `str.replace`: scan left to right, replacing each
non-overlapping occurrence of `p :: ps` by `rep`. -/
def replaceGo (p : Char) (ps rep : List Char) : Nat → List Char → List Char
  | _, [] => []
  | 0, s => s
  | fuel + 1, c :: cs =>
    if (p :: ps).isPrefixOf (c :: cs) then rep ++ replaceGo p ps rep fuel (cs.drop ps.length)
    else c :: replaceGo p ps rep fuel cs

/-- Python `s.replace(pat, rep)` for a non-empty pattern (`str.replace` with
an empty pattern never arises here: patterns are placeholder tokens). -/
def strReplace (s pat rep : List Char) : List Char :=
  match pat with
  | [] => s
  | p :: ps => replaceGo p ps rep s.length s

/-- `ExecutionService._substitute_variables`: scan the original template once
for placeholder keys, then for each key in match order replace every
occurrence of its token in the evolving text by the context value, or by the
bracketed placeholder when the key is absent. -/
def substituteVariables (content : List Char) (ctx : List (List Char × List Char)) : List Char :=
  (findVars content).foldl
    (fun acc v => strReplace acc (tokOf v) ((ctx.lookup v).getD (brkOf v))) content

/-- Spec-side description of substitution against a context with no matching
keys: the template with every placeholder token `\x7b\x7bx\x7d\x7d` replaced
by `[x]` and all other text unchanged. -/
def bracketSegs : List Seg → List Char
  | [] => []
  | .tk v :: L => brkOf v ++ bracketSegs L
  | .raw c :: L => c :: bracketSegs L
  | .ins x :: L => x ++ bracketSegs L

/-- Spec-side single-pass bracketing of a whole template. -/
def bracketAll (s : List Char) : List Char := bracketSegs (parseTemplate s)

/-- Invariant of segment lists arising during substitution: placeholder keys
are non-empty words, inserted replacement text contains no braces, and no
placeholder token starts at a literal-character position. -/
def SegsOK : List Seg → Prop
  | [] => True
  | .tk v :: L => (v ≠ [] ∧ ∀ c ∈ v, isWordChar c = true) ∧ SegsOK L
  | .ins x :: L => (∀ c ∈ x, c ≠ '{' ∧ c ≠ '}') ∧ SegsOK L
  | .raw c :: L => matchTok (c :: renderSegs L) = none ∧ SegsOK L

/-- Replacing the token of `v` turns each of its placeholder segments into
inserted bracket text and leaves every other segment alone. -/
def substSeg (v : List Char) : Seg → Seg
  | .tk w => if w = v then .ins (brkOf v) else .tk w
  | s => s

/-- Segment-wise replacement over a whole list. -/
def substSegs (v : List Char) (L : List Seg) : List Seg := L.map (substSeg v)

/-- Segment-wise replacement for a whole collection of keys. -/
def substAllSegs (W : List (List Char)) (L : List Seg) : List Seg :=
  L.map (fun seg => match seg with
    | .tk u => if u ∈ W then .ins (brkOf u) else .tk u
    | s => s)

/-- The bracket-only fold: replacing each listed key by its bracketed form in
sequence. -/
def brkFold (W : List (List Char)) (s : List Char) : List Char :=
  W.foldl (fun acc v => strReplace acc (tokOf v) (brkOf v)) s



/-! ## Per-task log store — `ExecutionService.add_task_log` / `get_task_logs`
(`src/v2/services/execution_service.py`, lines 540-566)

`task_logs` is a dictionary from a task key string to a list of log entries;
a missing key reads as the empty list (`.get(key, [])`).  The entry timestamp
(`datetime.now().isoformat()`) is a wall-clock effect and is omitted. -/

/-- One entry of a per-task log buffer (level and message). -/
structure LogEntry where
  level : String
  message : String
deriving DecidableEq

/-- The `task_logs` dictionary, with absent keys reading as `[]`. -/
def Store := String → List LogEntry

/-- Dictionary update `task_logs[key] = value`. -/
def storeSet (st : Store) (k : String) (logs : List LogEntry) : Store :=
  fun q => if q = k then logs else st q

/-- The task key `f"(job_id)_(stage_id)_(task_index)"`. -/
def taskKey (jobId stageId : String) (taskIndex : Nat) : String :=
  jobId ++ "_" ++ stageId ++ "_" ++ toString taskIndex

/-- The buffer update of `add_task_log`: append the entry, then keep only the
last 1000 entries when the buffer exceeds 1000. -/
def bufAppend (logs : List LogEntry) (e : LogEntry) : List LogEntry :=
  let l := logs ++ [e]
  if l.length > 1000 then l.drop (l.length - 1000) else l

/-- `ExecutionService.add_task_log`. -/
def addTaskLog (st : Store) (jobId stageId : String) (taskIndex : Nat)
    (level message : String) : Store :=
  let key := taskKey jobId stageId taskIndex
  storeSet st key (bufAppend (st key) ⟨level, message⟩)

/-- `ExecutionService.get_task_logs`. -/
def getTaskLogs (st : Store) (jobId stageId : String) (taskIndex : Nat) : List LogEntry :=
  st (taskKey jobId stageId taskIndex)

/-! ## Prompt orchestrator — `PromptOrchestrator`
(`src/v2/services/prompt_orchestrator.py`)

The file system is abstracted as a record: `pathExists` models
`Path.exists()` and `globMd` models `dir.glob('*.md')` returning the bare
file names found in a directory.  Paths are lists of components rooted at the
service prompts directory. -/

/-- Abstract file-system view used by the orchestrator and executor. -/
structure FS where
  pathExists : List String → Bool
  globMd : List String → List String

/-- `type` of a prompt step: agent-specific or target-specific. -/
inductive StepKind
  | agent
  | target
deriving DecidableEq

/-- The `type` discriminator string of a step kind. -/
def StepKind.str : StepKind → String
  | .agent => "agent"
  | .target => "target"

/-- One resolved prompt step (the dictionaries built by
`get_prompt_sequence` / `_get_fallback_sequence`).  Keys that a given step
kind does not carry in the Python dictionaries are modelled as `""`. -/
structure PromptInfo where
  kind : StepKind
  path : List String
  file : String
  purpose : String
  agent : String := ""
  capability : String := ""
  target : String := ""
deriving DecidableEq

/-- `str.lower()` (character-wise, matching the ASCII names in use). -/
def lowerStr (s : String) : String := (s.data.map Char.toLower).asString

/-- `.replace(' ', '_')`. -/
def underscoreSpaces (s : String) : String :=
  (s.data.map (fun c => if c = ' ' then '_' else c)).asString

/-- Agent/capability key normalization `s.lower().replace(' ', '_')`. -/
def normKey (s : String) : String := underscoreSpaces (lowerStr s)

/-- Target key normalization
`s.lower().replace(' ', '_').replace('/', '_').replace('.', '_')`. -/
def normTarget (s : String) : String :=
  (((normKey s).data.map (fun c => if c = '/' then '_' else c)).map
    (fun c => if c = '.' then '_' else c)).asString

/-- One step of a declarative sequence entry. -/
inductive StepDef
  | agentStep (prompts : List String) (purpose : String)
  | targetStep (prompt : String) (purpose : String)
deriving DecidableEq

/-- One declarative sequence entry (description plus ordered steps). -/
structure SeqDef where
  description : String
  sequence : List StepDef
deriving DecidableEq

/-- The declarative sequence table returned by
`PromptOrchestrator._load_prompt_sequences`. -/
def promptSequences : List (String × List (String × SeqDef)) :=
  [("code_architect",
    [("plan",
      { description := "Analyze source and create migration plan",
        sequence :=
          [.agentStep ["01_analyze_project_structure.md", "02_create_migration_plan.md"]
            "Understand source architecture",
          .targetStep "01_analyze.md" "Analyze target requirements",
          .targetStep "02_plan.md" "Create target-specific migration plan",
          .agentStep ["03_design_target_architecture.md"] "Design final architecture"] }),
    ("analyze",
      { description := "Deep analysis of source code",
        sequence :=
          [.agentStep ["01_analyze_codebase.md", "02_identify_patterns.md"]
            "Analyze source patterns",
          .targetStep "01_analyze.md" "Map to target patterns"] })]),
  ("code_engineer",
    [("migrate",
      { description := "Execute code migration",
        sequence :=
          [.agentStep ["01_setup_target_project.md"] "Initialize target project",
          .targetStep "03_migrate.md" "Execute target-specific migration",
          .agentStep ["02_migrate_data_models.md"] "Migrate data structures"] }),
    ("refactor",
      { description := "Refactor migrated code",
        sequence :=
          [.targetStep "04_validate.md" "Validate against target standards",
          .targetStep "05_fix.md" "Fix target-specific issues"] })]),
  ("qa_engineer",
    [("test",
      { description := "Create and run tests",
        sequence :=
          [.agentStep ["01_analyze_test_requirements.md"] "Understand testing needs",
          .targetStep "04_validate.md" "Target-specific validation",
          .agentStep ["02_create_test_suite.md"] "Create comprehensive tests"] }),
    ("validate",
      { description := "Validate migration quality",
        sequence :=
          [.targetStep "04_validate.md" "Target validation rules",
          .agentStep ["01_run_validation_suite.md"] "Execute validation"] })]),
  ("devops_engineer",
    [("setup_ci_cd",
      { description := "Setup CI/CD pipeline",
        sequence :=
          [.agentStep ["01_analyze_deployment_needs.md"] "Understand deployment requirements",
          .targetStep "03_migrate.md" "Target deployment patterns",
          .agentStep ["02_create_pipeline.md"] "Create CI/CD pipeline"] })]),
  ("project_manager",
    [("project_kickoff",
      { description := "Initialize project",
        sequence :=
          [.agentStep ["01_initialize_project.md"] "Setup project structure",
          .targetStep "06_discuss.md" "Discuss target approach"] }),
    ("status_report",
      { description := "Generate status reports",
        sequence :=
          [.agentStep ["01_gather_metrics.md"] "Collect project metrics",
          .agentStep ["02_generate_report.md"] "Create status report"] })])]

/-- The fixed capability-to-target-prompt mapping of
`_get_fallback_sequence`. -/
def targetMapping : List (String × List String) :=
  [("plan", ["01_analyze.md", "02_plan.md"]),
  ("analyze", ["01_analyze.md"]),
  ("migrate", ["03_migrate.md"]),
  ("validate", ["04_validate.md"]),
  ("test", ["04_validate.md"]),
  ("refactor", ["05_fix.md"]),
  ("discuss", ["06_discuss.md"])]

/-- Lexicographic code-point comparison of character lists (the order Python
uses on strings). -/
def strLeData : List Char → List Char → Bool
  | [], _ => true
  | _ :: _, [] => false
  | a :: as, b :: bs =>
    if a.toNat < b.toNat then true
    else if b.toNat < a.toNat then false
    else strLeData as bs

/-- Lexicographic string comparison. -/
def strLe (a b : String) : Bool := strLeData a.data b.data

/-- Ordered insertion for `sorted(...)`. -/
def insertStr (a : String) : List String → List String
  | [] => [a]
  | b :: l => if strLe a b then a :: b :: l else b :: insertStr a l

/-- `sorted(...)` over file names (lexicographic string order). -/
def sortStrs : List String → List String
  | [] => []
  | a :: l => insertStr a (sortStrs l)

/-- `PromptOrchestrator._get_fallback_sequence`: all existing `*.md` files
under the agent/capability directory (sorted) as agent steps, then the mapped
target prompts that exist on disk. -/
def fallbackSequence (fs : FS) (agent capability target : String) : List PromptInfo :=
  let agentDir := ["prompts", agent, capability]
  let agentSteps :=
    if fs.pathExists agentDir then
      (sortStrs (fs.globMd agentDir)).map (fun f =>
        { kind := .agent, path := agentDir ++ [f], file := f,
          purpose := "Agent-specific task", agent := agent, capability := capability })
    else []
  let targetSteps :=
    match targetMapping.lookup capability with
    | none => []
    | some files =>
      (files.filter (fun f => fs.pathExists ["prompts", "targets", target, f])).map
        (fun f =>
          { kind := .target, path := ["prompts", "targets", target, f], file := f,
            purpose := "Target-specific implementation", target := target })
  agentSteps ++ targetSteps

/-- `PromptOrchestrator.get_prompt_sequence`: normalize the three inputs,
look the (agent, capability) pair up in the declarative table, build the
resolved list skipping files that do not exist, and fall back to
`_get_fallback_sequence` when the table has no entry. -/
def getPromptSequence (fs : FS) (agent capability target : String) : List PromptInfo :=
  let agentKey := normKey agent
  let capabilityKey := normKey capability
  let targetKey := normTarget target
  match promptSequences.lookup agentKey with
  | none => fallbackSequence fs agentKey capabilityKey targetKey
  | some agentSeqs =>
    match agentSeqs.lookup capabilityKey with
    | none => fallbackSequence fs agentKey capabilityKey targetKey
    | some seqDef =>
      seqDef.sequence.foldr (fun step acc =>
        (match step with
        | .agentStep prompts purpose =>
          (prompts.filter (fun f =>
            fs.pathExists ["prompts", agentKey, capabilityKey, f])).map
            (fun f =>
              { kind := .agent, path := ["prompts", agentKey, capabilityKey, f],
                file := f, purpose := purpose, agent := agent, capability := capability })
        | .targetStep prompt purpose =>
          if fs.pathExists ["prompts", "targets", targetKey, prompt] then
            [{ kind := .target, path := ["prompts", "targets", targetKey, prompt],
               file := prompt, purpose := purpose, target := target }]
          else []) ++ acc) []

/-- Per-target result of `validate_orchestration`. -/
structure TargetValidation where
  totalPrompts : Nat
  missingPrompts : List (List String)
  foundPrompts : List (List String)
deriving DecidableEq

/-- Result of `validate_orchestration`. -/
structure ValidationResult where
  agent : String
  capability : String
  valid : Bool
  targets : List (String × TargetValidation)
deriving DecidableEq

/-- The body of the `for target in targets` loop of `validate_orchestration`:
resolve the sequence for one target and partition its prompts by on-disk
existence; `valid` is cleared whenever a missing prompt is seen. -/
def validateStep (fs : FS) (agent capability : String) (acc : ValidationResult)
    (target : String) : ValidationResult :=
  let seq := getPromptSequence fs agent capability target
  let found := (seq.filter (fun p => fs.pathExists p.path)).map (fun p => p.path)
  let missing := (seq.filter (fun p => !(fs.pathExists p.path))).map (fun p => p.path)
  { acc with
    valid := acc.valid && missing.isEmpty,
    targets := acc.targets ++
      [(target, { totalPrompts := seq.length, missingPrompts := missing,
                  foundPrompts := found })] }

/-- `PromptOrchestrator.validate_orchestration`. -/
def validateOrchestration (fs : FS) (agent capability : String)
    (targets : List String) : ValidationResult :=
  targets.foldl (validateStep fs agent capability)
    { agent := agent, capability := capability, valid := true, targets := [] }

/-! ## Task execution — `ExecutionService.execute_task`
(`src/v2/services/execution_service.py`, lines 41-178)

`_execute_prompt` (template read, variable substitution, subprocess launch
and stream reduction) is abstracted as an oracle `exec` returning the
per-prompt result dictionary together with the task-log entries it appends;
all its `add_task_log` calls use the same task key that `execute_task` passes
down, which the embedding threads explicitly.  Subprocesses are spawned only
inside this oracle, so the list of prompts handed to it (`attempted`) also
counts subprocess launches.  Timestamps are opaque (`nowStr`), and the
`executions` history index is not needed by the properties below. -/

/-- One entry of `prompt_results` (timestamp omitted). -/
structure PromptResult where
  promptFile : String
  status : String
  output : String
  error : String
deriving DecidableEq

/-- The file paths returned by `_save_execution_outputs`. -/
structure OutputPaths where
  directory : List String
  files : List (List String)
deriving DecidableEq

/-- The dictionary returned by `execute_task`.  The early no-prompts error
return carries only `execution_id`, `status` and `error`; its other keys are
modelled by the empty defaults. -/
structure ExecRecord where
  executionId : String
  jobId : String := ""
  stageId : String := ""
  taskIndex : Nat := 0
  agent : String := ""
  capability : String := ""
  status : String
  error : String := ""
  promptResults : List PromptResult := []
  outputPaths : OutputPaths := ⟨[], []⟩
deriving DecidableEq

/-- The task dictionary fields consumed by `execute_task`. -/
structure TaskSpec where
  agent : String
  name : String
deriving DecidableEq

/-- Result of one embedded `execute_task` call: the returned record, the
post-state of the task-log store, and the prompts handed to the per-prompt
oracle, in order. -/
structure ExecOutcome where
  record : ExecRecord
  store : Store
  attempted : List PromptInfo

/-- String replacement on `String` via the character-level `strReplace`. -/
def replaceStr (s pat rep : String) : String :=
  (strReplace s.data pat.data rep.data).asString

/-- The enhanced per-step context: job context updated with the prompt
metadata keys (dictionary update modelled by prepending, lookups read the
first binding). -/
def enhancedCtx (jobCtx : List (String × String)) (info : PromptInfo) :
    List (String × String) :=
  ("prompt_type", info.kind.str) :: ("prompt_purpose", info.purpose) ::
    (if info.kind = .target then [("target_prompt", info.file)]
     else [("agent_prompt", info.file)]) ++ jobCtx

/-- The output paths produced by `_save_execution_outputs` (file contents are
written to disk and not modelled; the path layout is). -/
def saveExecutionOutputs (jobId stageId : String) (taskIndex : Nat) (task : TaskSpec)
    (results : List PromptResult) (jobCtx : List (String × String)) : OutputPaths :=
  let outputDir :=
    match jobCtx.lookup "task_output_folder" with
    | some d => [d]
    | none => ["data", "jobs", jobId, "outputs", stageId,
        toString taskIndex ++ "_" ++ normKey task.name]
  let perResult := results.foldr (fun r acc =>
    (if r.status = "success" ∧ r.output ≠ "" then
      [outputDir ++ [replaceStr r.promptFile ".md" "" ++ "_output.md"]] else []) ++
    (if r.status = "error" ∧ r.error ≠ "" then
      [outputDir ++ [replaceStr r.promptFile ".md" "" ++ "_error.txt"]] else []) ++ acc) []
  { directory := outputDir,
    files := [outputDir ++ ["execution_summary.json"]] ++ perResult ++
      [outputDir ++ ["combined_output.md"]] }

/-- The per-step loop of `execute_task` (lines 120-148): log the step, build
the enhanced context, run the prompt through the oracle (appending the log
entries the oracle produced), record the result, and stop on the first step
whose result has status `error`. -/
def runPromptLoop
    (exec : PromptInfo → List (String × String) → PromptResult × List (String × String))
    (jobId stageId : String) (taskIndex : Nat) (jobCtx : List (String × String))
    (total : Nat) :
    Nat → Store → List PromptInfo →
      List PromptResult × String × Store × List PromptInfo
  | _, st, [] => ([], "success", st, [])
  | i, st, info :: rest =>
    let st1 := addTaskLog st jobId stageId taskIndex "info"
      ("Executing prompt " ++ toString (i + 1) ++ "/" ++ toString total ++ ": " ++ info.file)
    let ectx := enhancedCtx jobCtx info
    let res := (exec info ectx).1
    let plogs := (exec info ectx).2
    let st2 := plogs.foldl
      (fun acc lm => addTaskLog acc jobId stageId taskIndex lm.1 lm.2) st1
    if res.status = "error" then
      let st3 := addTaskLog st2 jobId stageId taskIndex "error"
        ("Prompt execution failed: " ++ res.error)
      ([res], "error", st3, [info])
    else
      let st3 := addTaskLog st2 jobId stageId taskIndex "info"
        ("Prompt " ++ toString (i + 1) ++ " completed successfully")
      let rec4 := runPromptLoop exec jobId stageId taskIndex jobCtx total (i + 1) st3 rest
      (res :: rec4.1, rec4.2.1, rec4.2.2.1, info :: rec4.2.2.2)

/-- The shared tail of `execute_task` (lines 105-178), entered once a
non-empty prompt sequence is in hand: reset the task log buffer, log the
start, run the loop, assemble the record and output paths, and write the
final log line. -/
def executeTaskMain
    (exec : PromptInfo → List (String × String) → PromptResult × List (String × String))
    (executionId jobId stageId : String) (taskIndex : Nat) (agentName capability : String)
    (task : TaskSpec) (jobCtx : List (String × String)) (st : Store)
    (seq : List PromptInfo) : ExecOutcome :=
  let st1 := storeSet st (taskKey jobId stageId taskIndex) []
  let st2 := addTaskLog st1 jobId stageId taskIndex "info"
    ("Starting execution of " ++ task.name)
  let st3 := addTaskLog st2 jobId stageId taskIndex "info"
    ("Agent: " ++ agentName ++ ", Capability: " ++ capability)
  let st4 := addTaskLog st3 jobId stageId taskIndex "info"
    ("Found " ++ toString seq.length ++ " prompts to execute")
  let loopOut := runPromptLoop exec jobId stageId taskIndex jobCtx seq.length 0 st4 seq
  let results := loopOut.1
  let overall := loopOut.2.1
  let st5 := loopOut.2.2.1
  let attempted := loopOut.2.2.2
  let outputPaths := saveExecutionOutputs jobId stageId taskIndex task results jobCtx
  let st6 :=
    if overall = "success" then
      addTaskLog st5 jobId stageId taskIndex "info"
        ("Task completed successfully! Executed " ++ toString results.length ++ " prompts.")
    else
      addTaskLog st5 jobId stageId taskIndex "error" "Task failed. Check errors above."
  { record :=
      { executionId := executionId, jobId := jobId, stageId := stageId,
        taskIndex := taskIndex, agent := agentName, capability := capability,
        status := overall, promptResults := results, outputPaths := outputPaths },
    store := st6, attempted := attempted }

/-- `ExecutionService.execute_task`. -/
def executeTask (fs : FS)
    (exec : PromptInfo → List (String × String) → PromptResult × List (String × String))
    (jobId stageId : String) (taskIndex : Nat) (task : TaskSpec)
    (jobCtx : List (String × String)) (nowStr : String) (st : Store) : ExecOutcome :=
  let executionId :=
    jobId ++ "_" ++ stageId ++ "_" ++ toString taskIndex ++ "_" ++ nowStr
  let agentName := normKey task.agent
  let capability := normKey task.name
  let targetName := lowerStr ((jobCtx.lookup "target_name").getD "")
  let seq0 := getPromptSequence fs agentName capability targetName
  if seq0.isEmpty then
    let promptDir := ["prompts", agentName, capability]
    if !(fs.pathExists promptDir) then
      { record :=
          { executionId := executionId, status := "error",
            error := "No prompts found for " ++ agentName ++ "/" ++ capability },
        store := st, attempted := [] }
    else
      let promptFiles := sortStrs (fs.globMd promptDir)
      if promptFiles.isEmpty then
        { record :=
            { executionId := executionId, status := "error",
              error := "No prompt files found in prompts/" ++ agentName ++ "/" ++ capability },
          store := st, attempted := [] }
      else
        executeTaskMain exec executionId jobId stageId taskIndex agentName capability
          task jobCtx st
          (promptFiles.map (fun f =>
            { kind := .agent, path := promptDir ++ [f], file := f, purpose := "Agent task",
              agent := agentName, capability := capability }))
  else
    executeTaskMain exec executionId jobId stageId taskIndex agentName capability
      task jobCtx st seq0

/-! ## Process retry loop — `EnhancedProcessManager.start_process`
(`src/claude_auth.py`, lines 251-348)

The loop body (launching the process, reading its stream, reaping it) is
abstracted by its observable outcome per iteration: normal completion
(`break`), an authentication-triggered retry (`retry_count += 1; continue`
without sleeping), or a raised exception.  Since every `continue` increments
`retry_count` by one, the n-th iteration runs with `retry_count = n - 1`, so
the body is indexed by `retry_count`.  `sleeps` records the `time.sleep`
durations in seconds, and a final re-raise is an `Except.error`. -/

/-- Observable outcome of one iteration of the retry loop body. -/
inductive BodyOutcome
  | ok
  | authRetry
  | raises (e : String)
deriving DecidableEq

/-- Trace of one `start_process` call: iterations run, back-off sleeps
performed (seconds, in order), and normal return versus re-raised error. -/
structure RetryTrace where
  attempts : Nat
  sleeps : List Nat
  result : Except String Unit

/-- The `while retry_count < max_retries` loop; the fuel equals
`maxRetries - retryCount`. -/
def startProcessGo (body : Nat → BodyOutcome) (maxRetries : Nat) :
    Nat → Nat → RetryTrace
  | _, 0 => { attempts := 0, sleeps := [], result := .ok () }
  | retryCount, fuel + 1 =>
    match body retryCount with
    | .ok => { attempts := 1, sleeps := [], result := .ok () }
    | .authRetry =>
      let t := startProcessGo body maxRetries (retryCount + 1) fuel
      { attempts := t.attempts + 1, sleeps := t.sleeps, result := t.result }
    | .raises e =>
      if retryCount < maxRetries - 1 then
        let t := startProcessGo body maxRetries (retryCount + 1) fuel
        { attempts := t.attempts + 1, sleeps := 2 ^ (retryCount + 1) :: t.sleeps,
          result := t.result }
      else { attempts := 1, sleeps := [], result := .error e }

/-- `EnhancedProcessManager.start_process` with `max_retries = 3`. -/
def startProcessRetry (body : Nat → BodyOutcome) : RetryTrace :=
  startProcessGo body 3 0 3

/-! ## Output stream reducers — `process_output`
(`src/v2/services/execution_service.py`, lines 298-350) and
`ProcessManager.process_claude_output` (`src/app.py`, lines 511-584)

Lines of subprocess stdout are modelled after JSON decoding: `PLine.ok j`
is a line that `json.loads` parses to `j`, `PLine.bad s` is a line that
raises `JSONDecodeError` (blank lines are `bad` lines whose strip is empty).
A processing exception that interrupts the stream is modelled by `exc`,
carrying the lines consumed before it.  Numeric message formatting
(`f'(duration:.2f)'` and friends) is floating-point and is modelled by
`toString` of the raw JSON number; no claim below depends on it.  A JSON
`content` value that is not a list is modelled as the empty list. -/

/-- Shallow JSON values. -/
inductive Json
  | null
  | bool (b : Bool)
  | num (n : Int)
  | str (s : String)
  | arr (items : List Json)
  | obj (fields : List (String × Json))

/-- `dict.get(k)` on a JSON object. -/
def Json.get? : Json → String → Option Json
  | .obj fields, k => fields.lookup k
  | _, _ => none

/-- `dict.get(k, dflt)` for string payloads. -/
def Json.getStr (j : Json) (k : String) (dflt : String) : String :=
  match j.get? k with
  | some (.str s) => s
  | _ => dflt

/-- `dict.get(k, dflt)` for numeric payloads. -/
def Json.getNum (j : Json) (k : String) (dflt : Int) : Int :=
  match j.get? k with
  | some (.num n) => n
  | _ => dflt

/-- `dict.get(k, [])` for list payloads. -/
def Json.getList (j : Json) (k : String) : List Json :=
  match j.get? k with
  | some (.arr l) => l
  | _ => []

/-- One stdout line after the JSON-decode attempt. -/
inductive PLine
  | ok (j : Json)
  | bad (s : String)

/-- An item put on the task message queue: a message dictionary or the
terminal `None` sentinel. -/
inductive QItem
  | item (qtype : String) (content : String)
  | sentinel
deriving DecidableEq

/-- `str.strip()`. -/
def stripStr (s : String) : String := s.trim

/-- Accumulated effects of the v2 reducer: queue puts, collected
`output_lines`, and task-log entries (level, message). -/
structure ReduceState where
  puts : List QItem
  outputLines : List String
  logs : List (String × String)
deriving DecidableEq

/-- The `text[:200] + "..."` preview of a logged assistant message. -/
def truncatePreview (t : String) : String :=
  if t.length > 200 then t.take 200 ++ "..." else t

/-- Content of the v2 success event (numeric formatting modelled by
`toString`). -/
def successContent (j : Json) : String :=
  "Completed in " ++ toString (Json.getNum j "duration_ms" 0) ++ "ms | Cost: $" ++
    toString (Json.getNum j "total_cost_usd" 0)

/-- Dispatch of one parsed JSON message inside the v2 `process_output`
closure (lines 304-339); `hasIds` models `job_id and stage_id is not None
and task_index is not None`. -/
def processLine (hasIds : Bool) (st : ReduceState) (j : Json) : ReduceState :=
  if Json.getStr j "type" "" = "assistant" then
    (((j.get? "message").getD (Json.obj [])).getList "content").foldl
      (fun acc content =>
        if Json.getStr content "type" "" = "text" then
          let text := stripStr (Json.getStr content "text" "")
          if text ≠ "" then
            { acc with
              outputLines := acc.outputLines ++ [text],
              puts := acc.puts ++ [.item "message" text],
              logs := acc.logs ++
                (if hasIds then [("info", "Claude: " ++ truncatePreview text)] else []) }
          else acc
        else acc) st
  else if Json.getStr j "type" "" = "tool_use" then
    let toolName := Json.getStr j "name" "unknown"
    { st with
      puts := st.puts ++ [.item "tool" ("Using tool: " ++ toolName)],
      logs := st.logs ++ (if hasIds then [("debug", "Tool use: " ++ toolName)] else []) }
  else if Json.getStr j "type" "" = "result" then
    if Json.getStr j "subtype" "" = "success" then
      { st with puts := st.puts ++ [.item "success" (successContent j)] }
    else
      { st with puts := st.puts ++ [.item "error" (Json.getStr j "message" "Unknown error")] }
  else st

/-- The v2 reducer loop over the stdout lines (blank and non-JSON lines kept
as raw output text, never on the queue). -/
def processStream (hasIds : Bool) (lines : List PLine) (st : ReduceState) : ReduceState :=
  lines.foldl (fun acc l =>
    match l with
    | .ok j => processLine hasIds acc j
    | .bad s =>
      if stripStr s ≠ "" then { acc with outputLines := acc.outputLines ++ [stripStr s] }
      else acc) st

/-- `process_output` from `_execute_with_claude`: consume the stream, emit an
error event if an exception interrupted processing, and always put the `None`
sentinel in the `finally` block. -/
def processOutput (hasIds : Bool) (lines : List PLine) (exc : Option String) : ReduceState :=
  let body := processStream hasIds lines { puts := [], outputLines := [], logs := [] }
  let withExc : ReduceState :=
    match exc with
    | some e => { body with puts := body.puts ++ [.item "error" e] }
    | none => body
  { withExc with puts := withExc.puts ++ [.sentinel] }

/-- `ProcessManager._clean_text` from `src/app.py`. -/
def cleanText (t : String) : String :=
  replaceStr (replaceStr t "Claude" "Cognidev") "claude" "Cognidev"

/-- The fixed subtype-to-explanation table of
`ProcessManager._handle_result_message`. -/
def appErrorMessages : List (String × String) :=
  [("error_during_execution",
    "Process completed successfully but reported a minor issue. Your files have been generated and should be valid. This is typically just a notification and does not affect the output."),
  ("timeout", "Process timed out. Consider breaking down your request into smaller tasks."),
  ("resource_limit", "Process exceeded resource limits. Try with a smaller input or simpler query."),
  ("permission_denied", "Permission denied. Check file permissions and access rights."),
  ("network_error", "Network connectivity issue. Please check your connection and try again."),
  ("invalid_input", "Invalid input provided. Please check your query and input files."),
  ("tool_error", "Tool execution failed. Check input files and permissions.")]

/-- `ProcessManager._handle_message` from `src/app.py` (lines 586-677):
dispatch one parsed message to the queue.  Emoji prefixes of the content
strings are cosmetic and omitted. -/
def appHandleMessage (j : Json) (puts : List QItem) : List QItem :=
  if Json.getStr j "type" "" = "assistant" then
    (((j.get? "message").getD (Json.obj [])).getList "content").foldl
      (fun acc content =>
        if Json.getStr content "type" "" = "text" then
          let text := stripStr (Json.getStr content "text" "")
          if text ≠ "" then
            let filtered := cleanText text
            if stripStr filtered ≠ "" then acc ++ [.item "message" filtered] else acc
          else acc
        else if Json.getStr content "type" "" = "tool_use" then
          acc ++ [.item "tool" ("Using tool: " ++ Json.getStr content "name" "unknown")]
        else acc) puts
  else if Json.getStr j "type" "" = "system" ∧ Json.getStr j "subtype" "" = "init" then
    let sessionId := Json.getStr j "session_id" ""
    puts ++ [.item "init"
      ("Starting session: " ++ (if sessionId = "" then "unknown" else sessionId.takeRight 8))]
  else if Json.getStr j "type" "" = "result" then
    if Json.getStr j "subtype" "" = "success" then
      puts ++ [.item "success"
        ("Completed in " ++ toString (Json.getNum j "duration_ms" 0) ++ "ms | Cost: $" ++
          toString (Json.getNum j "total_cost_usd" 0) ++ " | Turns: " ++
          toString (Json.getNum j "num_turns" 0))]
    else
      puts ++ [.item "error"
        ((appErrorMessages.lookup (Json.getStr j "subtype" "")).getD
          ("Process error: " ++ Json.getStr j "subtype" ""))]
  else puts

/-- `ProcessManager.process_claude_output` from `src/app.py`: the queue puts
of one reduction (stderr draining, process reaping and the context-file reset
in the `finally` block are process effects outside the queue). -/
def appProcessClaudeOutput (lines : List PLine) (exc : Option String) : List QItem :=
  let body : List QItem := lines.foldl (fun acc l =>
    match l with
    | .ok j => appHandleMessage j acc
    | .bad s => if stripStr s ≠ "" then acc ++ [.item "raw" (stripStr s)] else acc) []
  let withExc : List QItem :=
    match exc with
    | some e => body ++ [.item "error" ("Processing error: " ++ e)]
    | none => body
  withExc ++ [.sentinel]



/-- Spec-side reference for the fallback mapping (written from the claim's
words): `plan -> [01_analyze.md, 02_plan.md]`, `analyze -> [01_analyze.md]`,
`migrate -> [03_migrate.md]`, `validate` and `test -> [04_validate.md]`,
`refactor -> [05_fix.md]`, `discuss -> [06_discuss.md]`, and no target files
for any other capability. -/
def specTargetFiles (capabilityKey : String) : List String :=
  if capabilityKey = "plan" then ["01_analyze.md", "02_plan.md"]
  else if capabilityKey = "analyze" then ["01_analyze.md"]
  else if capabilityKey = "migrate" then ["03_migrate.md"]
  else if capabilityKey = "validate" then ["04_validate.md"]
  else if capabilityKey = "test" then ["04_validate.md"]
  else if capabilityKey = "refactor" then ["05_fix.md"]
  else if capabilityKey = "discuss" then ["06_discuss.md"]
  else []

/-- Spec-side reference for C5 (written from the claim's words): the shape —
step type and file name, in order — of the fallback sequence: all existing
`*.md` files under the agent/capability prompts directory, sorted
lexicographically, as agent steps, followed by the mapped target files that
exist on disk as target steps. -/
def specFallbackShape (fs : FS) (agentKey capabilityKey targetKey : String) :
    List (StepKind × String) :=
  (if fs.pathExists ["prompts", agentKey, capabilityKey] then
    (sortStrs (fs.globMd ["prompts", agentKey, capabilityKey])).map
      (fun f => (StepKind.agent, f))
  else [])
  ++ ((specTargetFiles capabilityKey).filter
      (fun f => fs.pathExists ["prompts", "targets", targetKey, f])).map
    (fun f => (StepKind.target, f))


/-- The condition under which `execute_task` returns early with a no-prompts
error, before touching the log store: empty resolved sequence and no usable
prompt directory contents for the old-style fallback. -/
def noPromptsExit (fs : FS) (task : TaskSpec) (jobCtx : List (String × String)) : Bool :=
  (getPromptSequence fs (normKey task.agent) (normKey task.name)
    (lowerStr ((jobCtx.lookup "target_name").getD ""))).isEmpty &&
    (!(fs.pathExists ["prompts", normKey task.agent, normKey task.name]) ||
      (sortStrs (fs.globMd ["prompts", normKey task.agent, normKey task.name])).isEmpty)

/-! ### Basic facts about the substitution scanner -/

theorem wordChar_ne {c : Char} (h : isWordChar c = true) :
    c ≠ '{' ∧ c ≠ '}' ∧ c ≠ '[' := by
  refine ⟨?_, ?_, ?_⟩ <;> rintro rfl <;> revert h <;> decide

theorem takeWhile_all_append {p : Char → Bool} {v : List Char} {x : Char} {t : List Char}
    (hv : ∀ c ∈ v, p c = true) (hx : p x = false) :
    (v ++ x :: t).takeWhile p = v ∧ (v ++ x :: t).dropWhile p = x :: t := by
  induction v with
  | nil => simp [List.takeWhile, List.dropWhile, hx]
  | cons a v ih =>
    have ha : p a = true := hv a (by simp)
    have := ih (fun c hc => hv c (by simp [hc]))
    simp [List.takeWhile, List.dropWhile, ha, this.1, this.2]

theorem tokOf_append (v r : List Char) :
    tokOf v ++ r = '{' :: '{' :: (v ++ '}' :: '}' :: r) := by
  simp [tokOf]

theorem matchTok_eq_some {s : List Char} {v r : List Char}
    (h : matchTok s = some (v, r)) :
    s = tokOf v ++ r ∧ v ≠ [] ∧ ∀ c ∈ v, isWordChar c = true := by
  match s with
  | [] => simp [matchTok] at h
  | [c1] => simp [matchTok] at h
  | c1 :: c2 :: rest =>
    rw [matchTok] at h
    split at h
    · rename_i hbr
      obtain ⟨rfl, rfl⟩ := hbr
      split at h
      · rename_i d1 d2 r2 hdrop
        split at h
        · rename_i hcl
          obtain ⟨rfl, rfl, hne⟩ := hcl
          have hp := Option.some.inj h
          rw [Prod.mk.injEq] at hp
          obtain ⟨hv, hr⟩ := hp
          subst hv hr
          refine ⟨?_, hne, fun c hc => List.mem_takeWhile_imp hc⟩
          rw [tokOf_append]
          have hsplit := List.takeWhile_append_dropWhile (p := isWordChar) (l := rest)
          rw [hdrop] at hsplit
          exact congrArg (fun t => '{' :: '{' :: t) hsplit.symm
        · exact absurd h (by simp)
      · rename_i hdrop
        exact absurd h (by simp)
    · exact absurd h (by simp)

theorem matchTok_tok {v : List Char} (hne : v ≠ [])
    (hw : ∀ c ∈ v, isWordChar c = true) (r : List Char) :
    matchTok (tokOf v ++ r) = some (v, r) := by
  rw [tokOf_append, matchTok]
  have hx : isWordChar '}' = false := by decide
  obtain ⟨htake, hdrop⟩ := takeWhile_all_append (t := '}' :: r) hw hx
  simp [htake, hdrop, hne]

/-- A placeholder token is never a prefix of a string at which the scanner
does not match. -/
theorem not_prefix_of_matchTok_none {s v : List Char} (hne : v ≠ [])
    (hw : ∀ c ∈ v, isWordChar c = true) (h : matchTok s = none) :
    ¬ (tokOf v).isPrefixOf s = true := by
  intro hpre
  obtain ⟨t, rfl⟩ := (List.isPrefixOf_iff_prefix.mp hpre)
  rw [matchTok_tok hne hw] at h
  exact absurd h (by simp)

theorem matchTok_lt {s v r : List Char} (h : matchTok s = some (v, r)) :
    r.length < s.length := by
  obtain ⟨rfl, -, -⟩ := matchTok_eq_some h
  simp [tokOf]
  omega

theorem parseGo_congr : ∀ (f g : Nat) (s : List Char),
    s.length ≤ f → s.length ≤ g → parseGo f s = parseGo g s := by
  intro f
  induction f with
  | zero =>
    intro g s hf hg
    have : s = [] := List.length_eq_zero.mp (Nat.le_zero.mp hf)
    subst this
    cases g <;> rfl
  | succ f ih =>
    intro g s hf hg
    match s with
    | [] => cases g <;> rfl
    | c :: cs =>
      match g, hg with
      | g + 1, hg =>
        simp only [List.length_cons] at hf hg
        cases h : matchTok (c :: cs) with
        | some p =>
          obtain ⟨v, r⟩ := p
          have hr : r.length < cs.length + 1 := matchTok_lt h
          simp only [parseGo, h]
          rw [ih g r (by omega) (by omega)]
        | none =>
          simp only [parseGo, h]
          rw [ih g cs (by omega) (by omega)]

theorem parseTemplate_match {c : Char} {cs v r : List Char}
    (h : matchTok (c :: cs) = some (v, r)) :
    parseTemplate (c :: cs) = .tk v :: parseTemplate r := by
  have hr : r.length < cs.length + 1 := matchTok_lt h
  show parseGo (cs.length + 1) (c :: cs) = _
  simp only [parseGo, h]
  rw [parseGo_congr cs.length r.length r (by omega) (by omega)]
  rfl

theorem parseTemplate_nomatch {c : Char} {cs : List Char}
    (h : matchTok (c :: cs) = none) :
    parseTemplate (c :: cs) = .raw c :: parseTemplate cs := by
  show parseGo (cs.length + 1) (c :: cs) = _
  simp only [parseGo, h]
  rfl

theorem replaceGo_congr (p : Char) (ps rep : List Char) : ∀ (f g : Nat) (s : List Char),
    s.length ≤ f → s.length ≤ g → replaceGo p ps rep f s = replaceGo p ps rep g s := by
  intro f
  induction f with
  | zero =>
    intro g s hf hg
    have : s = [] := List.length_eq_zero.mp (Nat.le_zero.mp hf)
    subst this
    cases g <;> rfl
  | succ f ih =>
    intro g s hf hg
    match s with
    | [] => cases g <;> rfl
    | c :: cs =>
      match g, hg with
      | g + 1, hg =>
        simp only [List.length_cons] at hf hg
        have hd : (cs.drop ps.length).length ≤ cs.length := by
          rw [List.length_drop]; omega
        by_cases h : (p :: ps).isPrefixOf (c :: cs) = true
        · simp only [replaceGo]
          rw [if_pos h, if_pos h, ih g (cs.drop ps.length) (by omega) (by omega)]
        · simp only [replaceGo]
          rw [if_neg h, if_neg h, ih g cs (by omega) (by omega)]

theorem strReplace_nil (pat rep : List Char) : strReplace [] pat rep = [] := by
  cases pat <;> rfl

theorem strReplace_cons (c : Char) (cs : List Char) (p : Char) (ps rep : List Char) :
    strReplace (c :: cs) (p :: ps) rep =
      if (p :: ps).isPrefixOf (c :: cs) then rep ++ strReplace (cs.drop ps.length) (p :: ps) rep
      else c :: strReplace cs (p :: ps) rep := by
  show replaceGo p ps rep (cs.length + 1) (c :: cs) = _
  by_cases h : (p :: ps).isPrefixOf (c :: cs) = true
  · simp only [replaceGo, h, if_true]
    unfold strReplace
    rw [replaceGo_congr p ps rep cs.length (cs.drop ps.length).length (cs.drop ps.length)
      (by rw [List.length_drop]; omega) (by omega)]
  · simp only [replaceGo, h, if_false]
    rfl

theorem renderSegs_parseTemplate (s : List Char) :
    renderSegs (parseTemplate s) = s := by
  have key : ∀ (n : Nat) (s : List Char), s.length ≤ n →
      renderSegs (parseTemplate s) = s := by
    intro n
    induction n with
    | zero =>
      intro s h
      have : s = [] := List.length_eq_zero.mp (Nat.le_zero.mp h)
      subst this
      rfl
    | succ n ih =>
      intro s h
      match s with
      | [] => rfl
      | c :: cs =>
        simp only [List.length_cons] at h
        cases hm : matchTok (c :: cs) with
        | some p =>
          obtain ⟨v, r⟩ := p
          rw [parseTemplate_match hm]
          have hr : r.length < cs.length + 1 := matchTok_lt hm
          have := ih r (by omega)
          obtain ⟨hs, -, -⟩ := matchTok_eq_some hm
          simp [renderSegs, Seg.render, this, hs]
        | none =>
          rw [parseTemplate_nomatch hm]
          have := ih cs (by omega)
          simp [renderSegs, Seg.render, this]
  exact key s.length s (Nat.le_refl _)

theorem segsOK_parseTemplate (s : List Char) : SegsOK (parseTemplate s) := by
  have key : ∀ (n : Nat) (s : List Char), s.length ≤ n → SegsOK (parseTemplate s) := by
    intro n
    induction n with
    | zero =>
      intro s h
      have : s = [] := List.length_eq_zero.mp (Nat.le_zero.mp h)
      subst this
      exact trivial
    | succ n ih =>
      intro s h
      match s with
      | [] => exact trivial
      | c :: cs =>
        simp only [List.length_cons] at h
        cases hm : matchTok (c :: cs) with
        | some p =>
          obtain ⟨v, r⟩ := p
          rw [parseTemplate_match hm]
          have hr : r.length < cs.length + 1 := matchTok_lt hm
          obtain ⟨-, hne, hw⟩ := matchTok_eq_some hm
          exact ⟨⟨hne, hw⟩, ih r (by omega)⟩
        | none =>
          rw [parseTemplate_nomatch hm]
          refine ⟨?_, ih cs (by omega)⟩
          rw [renderSegs_parseTemplate]
          exact hm
  exact key s.length s (Nat.le_refl _)

theorem brkOf_noBrace {v : List Char} (hw : ∀ c ∈ v, isWordChar c = true) :
    ∀ c ∈ brkOf v, c ≠ '{' ∧ c ≠ '}' := by
  intro c hc
  rcases List.mem_cons.mp hc with rfl | hc
  · exact ⟨by decide, by decide⟩
  · rcases List.mem_append.mp hc with hc | hc
    · obtain ⟨h1, h2, -⟩ := wordChar_ne (hw c hc)
      exact ⟨h1, h2⟩
    · rcases List.mem_singleton.mp hc with rfl
      exact ⟨by decide, by decide⟩

theorem not_isPrefixOf_of_head_ne {a b : Char} {as bs : List Char} (h : b ≠ a) :
    ¬ (a :: as).isPrefixOf (b :: bs) = true := by
  intro hp
  have := List.isPrefixOf_iff_prefix.mp hp
  rw [List.cons_prefix_cons] at this
  exact h this.1.symm

theorem strReplace_skip_nolbrace {v rep : List Char} :
    ∀ (x : List Char), (∀ c ∈ x, c ≠ '{') →
      ∀ r, strReplace (x ++ r) (tokOf v) rep = x ++ strReplace r (tokOf v) rep := by
  intro x
  induction x with
  | nil => intro _ r; simp
  | cons d x ih =>
    intro hx r
    have hd : d ≠ '{' := hx d (by simp)
    have step := strReplace_cons d (x ++ r) '{' ('{' :: (v ++ ['}', '}'])) rep
    rw [show ('{' :: ('{' :: (v ++ ['}', '}']))) = tokOf v from rfl] at step
    have hnp : ¬ (tokOf v).isPrefixOf (d :: (x ++ r)) = true :=
      not_isPrefixOf_of_head_ne hd
    rw [List.cons_append, step, if_neg hnp, ih (fun c hc => hx c (by simp [hc])) r]
    simp

theorem word_body_inj : ∀ (v w t u : List Char),
    (∀ c ∈ v, isWordChar c = true) → (∀ c ∈ w, isWordChar c = true) →
    v ++ '}' :: t = w ++ '}' :: u → v = w ∧ t = u := by
  intro v
  induction v with
  | nil =>
    intro w t u _ hw h
    match w with
    | [] => simpa using h
    | b :: wb =>
      rw [List.nil_append, List.cons_append, List.cons.injEq] at h
      obtain ⟨hb, -⟩ := h
      have := hw b (by simp)
      rw [← hb] at this
      exact absurd this (by decide)
  | cons a va ih =>
    intro w t u hv hw h
    match w with
    | [] =>
      rw [List.nil_append, List.cons_append, List.cons.injEq] at h
      obtain ⟨hb, -⟩ := h
      have := hv a (by simp)
      rw [hb] at this
      exact absurd this (by decide)
    | b :: wb =>
      rw [List.cons_append, List.cons_append, List.cons.injEq] at h
      obtain ⟨rfl, h⟩ := h
      obtain ⟨rfl, rfl⟩ := ih wb t u (fun c hc => hv c (by simp [hc]))
        (fun c hc => hw c (by simp [hc])) h
      exact ⟨rfl, rfl⟩

theorem tok_not_prefix_tok {v w r : List Char} (hvw : w ≠ v)
    (hv : ∀ c ∈ v, isWordChar c = true) (hw : ∀ c ∈ w, isWordChar c = true) :
    ¬ (tokOf v).isPrefixOf (tokOf w ++ r) = true := by
  intro hp
  obtain ⟨t, ht⟩ := List.isPrefixOf_iff_prefix.mp hp
  rw [tokOf_append, tokOf_append] at ht
  simp only [List.cons.injEq, true_and] at ht
  have hbody : v ++ '}' :: ('}' :: t) = w ++ '}' :: ('}' :: r) := ht
  exact hvw (word_body_inj v w _ _ hv hw hbody).1.symm

theorem strReplace_skip_tok {v w r rep : List Char} (hvw : w ≠ v) (hwne : w ≠ [])
    (hv : ∀ c ∈ v, isWordChar c = true) (hw : ∀ c ∈ w, isWordChar c = true) :
    strReplace (tokOf w ++ r) (tokOf v) rep = tokOf w ++ strReplace r (tokOf v) rep := by
  match w, hwne with
  | c0 :: w1, _ =>
    have hc0 : isWordChar c0 = true := hw c0 (by simp)
    have step1 := strReplace_cons '{' ('{' :: ((c0 :: w1) ++ '}' :: '}' :: r))
      '{' ('{' :: (v ++ ['}', '}'])) rep
    rw [show ('{' :: ('{' :: (v ++ ['}', '}']))) = tokOf v from rfl] at step1
    have hnp1 : ¬ (tokOf v).isPrefixOf
        ('{' :: ('{' :: ((c0 :: w1) ++ '}' :: '}' :: r))) = true := by
      have := tok_not_prefix_tok (r := r) hvw hv hw
      rwa [tokOf_append] at this
    have step2 := strReplace_cons '{' ((c0 :: w1) ++ '}' :: '}' :: r)
      '{' ('{' :: (v ++ ['}', '}'])) rep
    rw [show ('{' :: ('{' :: (v ++ ['}', '}']))) = tokOf v from rfl] at step2
    have hnp2 : ¬ (tokOf v).isPrefixOf ('{' :: ((c0 :: w1) ++ '}' :: '}' :: r)) = true := by
      intro hp
      have := List.isPrefixOf_iff_prefix.mp hp
      rw [show tokOf v = '{' :: ('{' :: (v ++ ['}', '}'])) from rfl,
        List.cons_prefix_cons, List.cons_append, List.cons_prefix_cons] at this
      obtain ⟨-, hh, -⟩ := this
      obtain ⟨h1, -, -⟩ := wordChar_ne hc0
      exact h1 hh.symm
    have hskip : strReplace (((c0 :: w1) ++ ['}', '}']) ++ r) (tokOf v) rep =
        ((c0 :: w1) ++ ['}', '}']) ++ strReplace r (tokOf v) rep := by
      refine strReplace_skip_nolbrace _ (fun c hc => ?_) r
      rcases List.mem_append.mp hc with hc | hc
      · exact (wordChar_ne (hw c hc)).1
      · rcases List.mem_cons.mp hc with rfl | hc
        · decide
        · rcases List.mem_singleton.mp hc with rfl
          decide
    rw [tokOf_append, step1, if_neg hnp1, step2, if_neg hnp2,
      show (c0 :: w1) ++ '}' :: '}' :: r = ((c0 :: w1) ++ ['}', '}']) ++ r by simp,
      hskip]
    simp [tokOf]

theorem strReplace_head_match {v r rep : List Char} :
    strReplace (tokOf v ++ r) (tokOf v) rep = rep ++ strReplace r (tokOf v) rep := by
  have step := strReplace_cons '{' (('{' :: (v ++ ['}', '}'])) ++ r)
    '{' ('{' :: (v ++ ['}', '}'])) rep
  rw [show ('{' :: ('{' :: (v ++ ['}', '}']))) = tokOf v from rfl] at step
  have hpre : (tokOf v).isPrefixOf (tokOf v ++ r) = true :=
    List.isPrefixOf_iff_prefix.mpr (List.prefix_append _ _)
  rw [show tokOf v ++ r = '{' :: ((('{' :: (v ++ ['}', '}']))) ++ r) by simp [tokOf]] at hpre ⊢
  rw [step, if_pos hpre, List.drop_left]

theorem prefix_split : ∀ (C : List Char) (p X : List Char), p <+: C ++ X →
    p <+: C ∨ ∃ q, p = C ++ q ∧ q <+: X := by
  intro C
  induction C with
  | nil => intro p X h; exact Or.inr ⟨p, by simp, by simpa using h⟩
  | cons c C1 ih =>
    intro p X h
    match p with
    | [] => exact Or.inl (List.nil_prefix)
    | d :: p1 =>
      rw [List.cons_append, List.cons_prefix_cons] at h
      obtain ⟨rfl, h⟩ := h
      rcases ih p1 X h with h1 | ⟨q, rfl, hq⟩
      · exact Or.inl (List.cons_prefix_cons.mpr ⟨rfl, h1⟩)
      · exact Or.inr ⟨q, by simp, hq⟩

theorem prefix_transfer_chunk {C X Y p : List Char} (hp : '[' ∉ p)
    (step : ∀ q, '[' ∉ q → q <+: X → q <+: Y) (h : p <+: C ++ X) : p <+: C ++ Y := by
  rcases prefix_split C p X h with h1 | ⟨q, rfl, hq⟩
  · exact h1.trans (List.prefix_append _ _)
  · have hq2 : '[' ∉ q := fun hmem => hp (List.mem_append.mpr (Or.inr hmem))
    obtain ⟨t, rfl⟩ := step q hq2 hq
    exact ⟨t, by simp⟩

theorem prefix_transfer {v : List Char} : ∀ (L : List Seg) (p : List Char), '[' ∉ p →
    p <+: renderSegs (substSegs v L) → p <+: renderSegs L := by
  intro L
  induction L with
  | nil => intro p _ h; simpa [substSegs, renderSegs] using h
  | cons seg L1 ih =>
    intro p hp h
    match seg with
    | .raw c =>
      rw [show substSegs v (.raw c :: L1) = .raw c :: substSegs v L1 from rfl] at h
      exact prefix_transfer_chunk hp (fun q hq hqX => ih q hq hqX) h
    | .ins x =>
      rw [show substSegs v (.ins x :: L1) = .ins x :: substSegs v L1 from rfl] at h
      exact prefix_transfer_chunk hp (fun q hq hqX => ih q hq hqX) h
    | .tk w =>
      by_cases hwv : w = v
      · subst hwv
        rw [show substSegs w (.tk w :: L1) = .ins (brkOf w) :: substSegs w L1 by
          simp [substSegs, substSeg]] at h
        match p with
        | [] => exact List.nil_prefix
        | d :: p1 =>
          rw [show renderSegs (.ins (brkOf w) :: substSegs w L1) =
            '[' :: ((w ++ [']']) ++ renderSegs (substSegs w L1)) by
              simp [renderSegs, Seg.render, brkOf]] at h
          rw [List.cons_prefix_cons] at h
          exact absurd (h.1 ▸ List.mem_cons_self d p1) hp
      · rw [show substSegs v (.tk w :: L1) = .tk w :: substSegs v L1 by
          simp [substSegs, substSeg, hwv]] at h
        exact prefix_transfer_chunk hp (fun q hq hqX => ih q hq hqX) h

theorem matchTok_none_subst {v : List Char} {L : List Seg} {c : Char}
    (h : matchTok (c :: renderSegs L) = none) :
    matchTok (c :: renderSegs (substSegs v L)) = none := by
  cases h2 : matchTok (c :: renderSegs (substSegs v L)) with
  | none => rfl
  | some p =>
    obtain ⟨u, t⟩ := p
    obtain ⟨hs, hune, huw⟩ := matchTok_eq_some h2
    rw [tokOf_append, List.cons.injEq] at hs
    obtain ⟨rfl, hrest⟩ := hs
    have hpfx : ('{' :: (u ++ ['}', '}'])) <+: renderSegs (substSegs v L) := by
      refine ⟨t, ?_⟩
      rw [hrest]
      simp
    have hnb : '[' ∉ ('{' :: (u ++ ['}', '}'])) := by
      intro hmem
      rcases List.mem_cons.mp hmem with hx | hx
      · exact absurd hx (by decide)
      · rcases List.mem_append.mp hx with hx | hx
        · have := huw '[' hx
          exact absurd this (by decide)
        · rcases List.mem_cons.mp hx with hx | hx
          · exact absurd hx (by decide)
          · rcases List.mem_singleton.mp hx with hx
            exact absurd hx (by decide)
    obtain ⟨t2, ht2⟩ := prefix_transfer L _ hnb hpfx
    have hLmatch : matchTok ('{' :: renderSegs L) = some (u, t2) := by
      rw [← ht2, show '{' :: ((('{' :: (u ++ ['}', '}']))) ++ t2) = tokOf u ++ t2 by
        simp [tokOf]]
      exact matchTok_tok hune huw t2
    rw [hLmatch] at h
    exact absurd h (by simp)

/-- Core replacement lemma: on a well-formed segment list, replacing the
placeholder token of `v` by its bracketed form acts segment-wise and
preserves well-formedness. -/
theorem strReplace_segs {v : List Char} (hvne : v ≠ [])
    (hvw : ∀ c ∈ v, isWordChar c = true) :
    ∀ (L : List Seg), SegsOK L →
      strReplace (renderSegs L) (tokOf v) (brkOf v) = renderSegs (substSegs v L)
      ∧ SegsOK (substSegs v L) := by
  intro L
  induction L with
  | nil => intro _; exact ⟨by simp [renderSegs, substSegs, strReplace_nil], trivial⟩
  | cons seg L1 ih =>
    intro hOK
    match seg with
    | .tk w =>
      obtain ⟨⟨hwne, hww⟩, hL⟩ := hOK
      obtain ⟨ihEq, ihOK⟩ := ih hL
      by_cases hwv : w = v
      · subst hwv
        have hrend : renderSegs (Seg.tk w :: L1) = tokOf w ++ renderSegs L1 := by
          simp [renderSegs, Seg.render]
        have hsub : substSegs w (Seg.tk w :: L1) = Seg.ins (brkOf w) :: substSegs w L1 := by
          simp [substSegs, substSeg]
        rw [hrend, strReplace_head_match, ihEq, hsub]
        exact ⟨by simp [renderSegs, Seg.render], brkOf_noBrace hww, ihOK⟩
      · have hrend : renderSegs (Seg.tk w :: L1) = tokOf w ++ renderSegs L1 := by
          simp [renderSegs, Seg.render]
        have hsub : substSegs v (Seg.tk w :: L1) = Seg.tk w :: substSegs v L1 := by
          simp [substSegs, substSeg, hwv]
        rw [hrend, strReplace_skip_tok hwv hwne hvw hww, ihEq, hsub]
        exact ⟨by simp [renderSegs, Seg.render], ⟨hwne, hww⟩, ihOK⟩
    | .ins x =>
      obtain ⟨hx, hL⟩ := hOK
      obtain ⟨ihEq, ihOK⟩ := ih hL
      have hstep : strReplace (x ++ renderSegs L1) (tokOf v) (brkOf v) =
          x ++ strReplace (renderSegs L1) (tokOf v) (brkOf v) :=
        strReplace_skip_nolbrace x (fun c hc => (hx c hc).1) _
      refine ⟨?_, ⟨hx, by simpa [substSegs] using ihOK⟩⟩
      rw [show renderSegs (Seg.ins x :: L1) = x ++ renderSegs L1 from rfl, hstep, ihEq]
      rfl
    | .raw c =>
      obtain ⟨hm, hL⟩ := hOK
      obtain ⟨ihEq, ihOK⟩ := ih hL
      have hnp : ¬ (tokOf v).isPrefixOf (c :: renderSegs L1) = true :=
        not_prefix_of_matchTok_none hvne hvw hm
      have step := strReplace_cons c (renderSegs L1) '{' ('{' :: (v ++ ['}', '}'])) (brkOf v)
      rw [show ('{' :: ('{' :: (v ++ ['}', '}']))) = tokOf v from rfl] at step
      refine ⟨?_, ⟨matchTok_none_subst hm, by simpa [substSegs] using ihOK⟩⟩
      rw [show renderSegs (Seg.raw c :: L1) = c :: renderSegs L1 from rfl, step,
        if_neg hnp, ihEq]
      rfl

end CodeConv

namespace CodeConv

theorem substAllSegs_nil (L : List Seg) : substAllSegs [] L = L := by
  induction L with
  | nil => rfl
  | cons seg L ih =>
    cases seg <;> simp [substAllSegs] at ih ⊢ <;> exact ih

theorem substAllSegs_cons (W : List (List Char)) (v : List Char) (L : List Seg) :
    substAllSegs W (substSegs v L) = substAllSegs (v :: W) L := by
  induction L with
  | nil => rfl
  | cons seg L ih =>
    cases seg with
    | raw c => simpa [substAllSegs, substSegs, substSeg] using ih
    | ins x => simpa [substAllSegs, substSegs, substSeg] using ih
    | tk u =>
      by_cases hu : u = v
      · subst hu
        simp only [substSegs, List.map_cons, substSeg, if_pos rfl, substAllSegs, List.map_cons]
        simp only [substAllSegs, substSegs] at ih
        rw [ih]
        simp [List.mem_cons]
      · simp only [substSegs, List.map_cons, substSeg, if_neg hu, substAllSegs, List.map_cons]
        simp only [substAllSegs, substSegs] at ih
        rw [ih]
        have : (u ∈ v :: W) = (u ∈ W) := by
          simp [List.mem_cons, hu]
        simp [this]

theorem brkFold_segs : ∀ (W : List (List Char)),
    (∀ w ∈ W, w ≠ [] ∧ ∀ c ∈ w, isWordChar c = true) →
    ∀ (L : List Seg), SegsOK L →
      brkFold W (renderSegs L) = renderSegs (substAllSegs W L) := by
  intro W
  induction W with
  | nil => intro _ L _; rw [substAllSegs_nil]; rfl
  | cons v W ih =>
    intro hW L hOK
    obtain ⟨hvne, hvw⟩ := hW v (by simp)
    obtain ⟨hEq, hOK2⟩ := strReplace_segs hvne hvw L hOK
    show brkFold W (strReplace (renderSegs L) (tokOf v) (brkOf v)) = _
    rw [hEq, ih (fun w hw => hW w (by simp [hw])) _ hOK2, substAllSegs_cons]

theorem mem_varsOfSegs_of_tk : ∀ (L : List Seg) (u : List Char),
    .tk u ∈ L → u ∈ varsOfSegs L := by
  intro L
  induction L with
  | nil => intro u h; simp at h
  | cons seg L ih =>
    intro u h
    rcases List.mem_cons.mp h with h1 | h1
    · rw [← h1]
      simp [varsOfSegs]
    · match seg with
      | .raw c => simpa [varsOfSegs] using ih u h1
      | .ins x => simpa [varsOfSegs] using ih u h1
      | .tk v =>
        simp only [varsOfSegs, List.mem_cons]
        exact Or.inr (ih u h1)

theorem varsOfSegs_words : ∀ (L : List Seg), SegsOK L →
    ∀ w ∈ varsOfSegs L, w ≠ [] ∧ ∀ c ∈ w, isWordChar c = true := by
  intro L
  induction L with
  | nil => intro _ w hw; simp [varsOfSegs] at hw
  | cons seg L ih =>
    intro hOK w hw
    match seg with
    | .tk v =>
      obtain ⟨hword, hL⟩ := hOK
      rcases List.mem_cons.mp hw with rfl | hw
      · exact hword
      · exact ih hL w hw
    | .raw c =>
      obtain ⟨-, hL⟩ := hOK
      exact ih hL w hw
    | .ins x =>
      obtain ⟨-, hL⟩ := hOK
      exact ih hL w hw

theorem renderSegs_substAll_eq_bracket : ∀ (L : List Seg) (W : List (List Char)),
    (∀ u, .tk u ∈ L → u ∈ W) → renderSegs (substAllSegs W L) = bracketSegs L := by
  intro L
  induction L with
  | nil => intro W _; rfl
  | cons seg L ih =>
    intro W hW
    match seg with
    | .tk u =>
      have hu : u ∈ W := hW u (by simp)
      simp only [substAllSegs, List.map_cons, if_pos hu]
      show renderSegs (.ins (brkOf u) :: substAllSegs W L) = _
      show brkOf u ++ renderSegs (substAllSegs W L) = brkOf u ++ bracketSegs L
      rw [ih W (fun x hx => hW x (by simp [hx]))]
    | .raw c =>
      simp only [substAllSegs, List.map_cons]
      show renderSegs (.raw c :: substAllSegs W L) = _
      show c :: renderSegs (substAllSegs W L) = c :: bracketSegs L
      rw [ih W (fun x hx => hW x (by simp [hx]))]
    | .ins x =>
      simp only [substAllSegs, List.map_cons]
      show renderSegs (.ins x :: substAllSegs W L) = _
      show x ++ renderSegs (substAllSegs W L) = x ++ bracketSegs L
      rw [ih W (fun x hx => hW x (by simp [hx]))]

/-- The substitution fold only consults the context at the keys found by the
single scan of the original template. -/
theorem subst_fold_congr (content : List Char)
    (ctx ctx2 : List (List Char × List Char))
    (h : ∀ v ∈ findVars content, ctx.lookup v = ctx2.lookup v) :
    substituteVariables content ctx = substituteVariables content ctx2 := by
  unfold substituteVariables
  have key : ∀ (W : List (List Char)) (s : List Char),
      (∀ v ∈ W, ctx.lookup v = ctx2.lookup v) →
      W.foldl (fun acc v => strReplace acc (tokOf v) ((ctx.lookup v).getD (brkOf v))) s =
      W.foldl (fun acc v => strReplace acc (tokOf v) ((ctx2.lookup v).getD (brkOf v))) s := by
    intro W
    induction W with
    | nil => intro s _; rfl
    | cons v W ih =>
      intro s hs
      simp only [List.foldl_cons]
      rw [hs v (by simp), ih _ (fun u hu => hs u (by simp [hu]))]
  exact key _ content h

theorem subst_fold_brk (content : List Char) (ctx : List (List Char × List Char))
    (h : ∀ v ∈ findVars content, ctx.lookup v = none) :
    substituteVariables content ctx = brkFold (findVars content) content := by
  unfold substituteVariables brkFold
  have key : ∀ (W : List (List Char)) (s : List Char),
      (∀ v ∈ W, ctx.lookup v = none) →
      W.foldl (fun acc v => strReplace acc (tokOf v) ((ctx.lookup v).getD (brkOf v))) s =
      W.foldl (fun acc v => strReplace acc (tokOf v) (brkOf v)) s := by
    intro W
    induction W with
    | nil => intro s _; rfl
    | cons v W ih =>
      intro s hs
      simp only [List.foldl_cons]
      rw [hs v (by simp), ih _ (fun u hu => hs u (by simp [hu]))]
      rfl
  exact key _ content h

end CodeConv

namespace CodeConv

/-! ### Claim theorems: variable substitution -/

/-- C7: for every template and context, substitution replaces each
placeholder occurrence whose key is absent from the context by the bracketed
placeholder `[key]` rather than failing; in particular, against a context
with no matching keys the result is the template with every placeholder
token replaced by its bracketed form and all other text unchanged. -/
theorem substitution_absent_keys (content : List Char)
    (ctx : List (List Char × List Char))
    (h : ∀ v ∈ findVars content, ctx.lookup v = none) :
    substituteVariables content ctx = bracketAll content := by
  rw [subst_fold_brk content ctx h]
  have hok := segsOK_parseTemplate content
  have hwords := varsOfSegs_words _ hok
  have h1 : brkFold (findVars content) (renderSegs (parseTemplate content)) =
      renderSegs (substAllSegs (findVars content) (parseTemplate content)) :=
    brkFold_segs _ hwords _ hok
  rw [renderSegs_parseTemplate] at h1
  have h2 : renderSegs (substAllSegs (findVars content) (parseTemplate content))
      = bracketSegs (parseTemplate content) :=
    renderSegs_substAll_eq_bracket (parseTemplate content) (findVars content)
      (fun u hu => mem_varsOfSegs_of_tk _ u hu)
  rw [h1, h2]
  rfl

/-- Witness for C7 at a concrete template and a context with no matching
keys. -/
theorem substitution_absent_keys_witness :
    (∀ v ∈ findVars (['u'] ++ tokOf ['x'] ++ ['v']),
      ([(['y'], ['q'])] : List (List Char × List Char)).lookup v = none)
    ∧ substituteVariables (['u'] ++ tokOf ['x'] ++ ['v']) [(['y'], ['q'])]
      = bracketAll (['u'] ++ tokOf ['x'] ++ ['v']) :=
  ⟨by decide, substitution_absent_keys _ _ (by decide)⟩

/-- C6 counterexample: with template `(tok a)(tok b)` and context
`a ↦ (tok b), b ↦ X`, the token injected by substituting `a` is itself
substituted when `b` is processed, yielding `XX`; the injected token does not
survive in the final result, contrary to the claim. -/
theorem substitution_injected_token_substituted :
    substituteVariables (tokOf ['a'] ++ tokOf ['b'])
        [(['a'], tokOf ['b']), (['b'], ['X'])] = ['X', 'X']
    ∧ ¬ (tokOf ['b'] <:+:
        substituteVariables (tokOf ['a'] ++ tokOf ['b'])
          [(['a'], tokOf ['b']), (['b'], ['X'])]) := by
  decide

/-- C6 amended: the keys are collected in one scan of the original template
and the result is never re-scanned for new keys — substitution depends on the
context only at the keys of that single scan — but replacement is performed
sequentially on the evolving text, so a token `(tok k2)` injected by an
earlier key's value is itself substituted when `k2` is processed afterwards,
as at the concrete input of the counterexample. -/
theorem substitution_single_scan :
    (∀ (content : List Char) (ctx ctx2 : List (List Char × List Char)),
      (∀ v ∈ findVars content, ctx.lookup v = ctx2.lookup v) →
      substituteVariables content ctx = substituteVariables content ctx2)
    ∧ substituteVariables (tokOf ['a'] ++ tokOf ['b'])
        [(['a'], tokOf ['b']), (['b'], ['X'])] = ['X', 'X'] :=
  ⟨subst_fold_congr, by decide⟩

/-- Witness for the amended C6 at a concrete template and two contexts that
agree on the scanned keys. -/
theorem substitution_single_scan_witness :
    substituteVariables (tokOf ['a']) [(['c'], ['z'])]
      = substituteVariables (tokOf ['a']) [] :=
  substitution_single_scan.1 _ _ _ (by decide)

/-! ### Claim theorems: per-task log ring buffer -/

theorem bufAppend_eq_drop (logs : List LogEntry) (e : LogEntry) :
    bufAppend logs e = (logs ++ [e]).drop ((logs ++ [e]).length - 1000) := by
  unfold bufAppend
  by_cases h : (logs ++ [e]).length > 1000
  · rw [if_pos h]
  · rw [if_neg h]
    have : (logs ++ [e]).length - 1000 = 0 := by omega
    rw [this, List.drop_zero]

theorem foldl_bufAppend_drop : ∀ (es acc : List LogEntry), acc.length ≤ 1000 →
    es.foldl bufAppend acc = (acc ++ es).drop (acc.length + es.length - 1000) := by
  intro es
  induction es with
  | nil =>
    intro acc h
    simp only [List.foldl_nil, List.length_nil, Nat.add_zero, List.append_nil]
    have h0 : acc.length - 1000 = 0 := by omega
    rw [h0, List.drop_zero]
  | cons e es ih =>
    intro acc h
    rw [List.foldl_cons, bufAppend_eq_drop]
    have hlen : ((acc ++ [e]).drop ((acc ++ [e]).length - 1000)).length ≤ 1000 := by
      rw [List.length_drop]
      omega
    rw [ih _ hlen]
    have hk : (acc ++ [e]).length - 1000 ≤ (acc ++ [e]).length := by omega
    rw [← List.drop_append_of_le_length hk, List.drop_drop]
    have hassoc : (acc ++ [e]) ++ es = acc ++ e :: es := by simp
    rw [hassoc]
    have harith : ((acc ++ [e]).length - 1000) +
        ((List.drop ((acc ++ [e]).length - 1000) (acc ++ [e])).length + es.length - 1000)
        = acc.length + (e :: es).length - 1000 := by
      rw [List.length_drop]
      simp only [List.length_append, List.length_cons, List.length_nil]
      omega
    rw [harith]

set_option maxRecDepth 8192 in
/-- C4: the per-task log buffer is capped at 1000 entries with oldest-first
eviction: any sequence of appends to an initially empty buffer leaves at most
1000 entries, and exactly the most recently appended entries in insertion
order; appending 1050 entries leaves exactly the last 1000 (entries 51-1050
of the insertion order); and `add_task_log` applies exactly this buffer
update at its task key, which `get_task_logs` reads back. -/
theorem task_log_ring_buffer :
    (∀ (es : List LogEntry),
      (es.foldl bufAppend []).length ≤ 1000
      ∧ es.foldl bufAppend [] = es.drop (es.length - 1000))
    ∧ (∀ (f : Nat → LogEntry),
      ((List.range 1050).map f).foldl bufAppend [] = (List.range' 50 1000).map f)
    ∧ (∀ (st : Store) (jobId stageId level msg : String) (taskIndex : Nat),
      getTaskLogs (addTaskLog st jobId stageId taskIndex level msg) jobId stageId taskIndex
        = bufAppend (getTaskLogs st jobId stageId taskIndex) ⟨level, msg⟩) := by
  have hmain : ∀ (es : List LogEntry),
      es.foldl bufAppend [] = es.drop (es.length - 1000) := by
    intro es
    have := foldl_bufAppend_drop es [] (by simp)
    simpa using this
  refine ⟨fun es => ⟨?_, hmain es⟩, fun f => ?_, fun st jobId stageId level msg taskIndex => ?_⟩
  · rw [hmain, List.length_drop]
    omega
  · rw [hmain]
    have hlen : ((List.range 1050).map f).length = 1050 := by simp
    rw [hlen]
    have hdrop : (List.range 1050).drop 50 = List.range' 50 1000 := by
      rw [List.range_eq_range']
      decide
    rw [← List.map_drop, hdrop]
  · unfold addTaskLog getTaskLogs storeSet
    simp

end CodeConv

namespace CodeConv

/-! ### Claim theorems: process retry loop -/

/-- C3 amended: the retry loop lives in `EnhancedProcessManager.start_process`
(`src/claude_auth.py`), not in `ExecutionService.execute_task`: it makes at
most 3 attempts; when an attempt raises and it is not the last attempt it
sleeps `2^attempt` seconds (attempts numbered from 1) and reruns the whole
invocation; when the last attempt raises, the exception is re-raised to the
caller; a retried attempt that succeeds ends the loop normally. -/
theorem start_process_retry_policy :
    (∀ (body : Nat → BodyOutcome), (startProcessRetry body).attempts ≤ 3)
    ∧ (∀ (e0 e1 e2 : String) (body : Nat → BodyOutcome),
        body 0 = .raises e0 → body 1 = .raises e1 → body 2 = .raises e2 →
        startProcessRetry body = { attempts := 3, sleeps := [2, 4], result := .error e2 })
    ∧ (∀ (e0 : String) (body : Nat → BodyOutcome),
        body 0 = .raises e0 → body 1 = .ok →
        startProcessRetry body = { attempts := 2, sleeps := [2], result := .ok () }) := by
  refine ⟨fun body => ?_, fun e0 e1 e2 body h0 h1 h2 => ?_, fun e0 body h0 h1 => ?_⟩
  · cases h0 : body 0 <;> cases h1 : body 1 <;> cases h2 : body 2 <;>
      simp [startProcessRetry, startProcessGo, h0, h1, h2]
  · simp [startProcessRetry, startProcessGo, h0, h1, h2]
  · simp [startProcessRetry, startProcessGo, h0, h1]

/-- Witness for the amended C3 at concrete loop bodies. -/
theorem start_process_retry_policy_witness :
    startProcessRetry (fun _ => .raises "boom")
      = { attempts := 3, sleeps := [2, 4], result := .error "boom" }
    ∧ startProcessRetry (fun n => if n = 0 then .raises "transient" else .ok)
      = { attempts := 2, sleeps := [2], result := .ok () } :=
  ⟨start_process_retry_policy.2.1 "boom" "boom" "boom" _ rfl rfl rfl,
   start_process_retry_policy.2.2 "transient" _ rfl rfl⟩

/-! ### Claim theorems: output stream reducers -/

theorem processLine_count_sentinel (hasIds : Bool) (st : ReduceState) (j : Json) :
    (processLine hasIds st j).puts.count .sentinel = st.puts.count .sentinel := by
  unfold processLine
  by_cases ha : Json.getStr j "type" "" = "assistant"
  · rw [if_pos ha]
    generalize (((j.get? "message").getD (Json.obj [])).getList "content") = contents
    induction contents generalizing st with
    | nil => rfl
    | cons c cs ih =>
      rw [List.foldl_cons]
      rw [ih]
      by_cases ht : Json.getStr c "type" "" = "text"
      · rw [if_pos ht]
        by_cases hne : stripStr (Json.getStr c "text" "") ≠ ""
        · rw [if_pos hne]
          simp [List.count_append]
        · rw [if_neg hne]
      · rw [if_neg ht]
  · rw [if_neg ha]
    by_cases htool : Json.getStr j "type" "" = "tool_use"
    · rw [if_pos htool]
      simp [List.count_append]
    · rw [if_neg htool]
      by_cases hres : Json.getStr j "type" "" = "result"
      · rw [if_pos hres]
        by_cases hsub : Json.getStr j "subtype" "" = "success"
        · rw [if_pos hsub]
          simp [List.count_append]
        · rw [if_neg hsub]
          simp [List.count_append]
      · rw [if_neg hres]

theorem processStream_count_sentinel (hasIds : Bool) :
    ∀ (lines : List PLine) (st : ReduceState),
      (processStream hasIds lines st).puts.count .sentinel = st.puts.count .sentinel := by
  intro lines
  induction lines with
  | nil => intro st; rfl
  | cons l ls ih =>
    intro st
    unfold processStream at ih ⊢
    rw [List.foldl_cons, ih]
    match l with
    | .ok j => exact processLine_count_sentinel hasIds st j
    | .bad s =>
      by_cases hs : stripStr s ≠ ""
      · simp only [if_pos hs]
      · simp only [if_neg hs]

theorem appHandleMessage_count_sentinel (j : Json) (puts : List QItem) :
    (appHandleMessage j puts).count .sentinel = puts.count .sentinel := by
  unfold appHandleMessage
  by_cases ha : Json.getStr j "type" "" = "assistant"
  · rw [if_pos ha]
    generalize (((j.get? "message").getD (Json.obj [])).getList "content") = contents
    induction contents generalizing puts with
    | nil => rfl
    | cons c cs ih =>
      rw [List.foldl_cons]
      rw [ih]
      by_cases ht : Json.getStr c "type" "" = "text"
      · rw [if_pos ht]
        by_cases hne : stripStr (Json.getStr c "text" "") ≠ ""
        · rw [if_pos hne]
          by_cases hf : stripStr (cleanText (stripStr (Json.getStr c "text" ""))) ≠ ""
          · rw [if_pos hf]
            simp [List.count_append]
          · rw [if_neg hf]
        · rw [if_neg hne]
      · rw [if_neg ht]
        by_cases htu : Json.getStr c "type" "" = "tool_use"
        · rw [if_pos htu]
          simp [List.count_append]
        · rw [if_neg htu]
  · rw [if_neg ha]
    by_cases hi : Json.getStr j "type" "" = "system" ∧ Json.getStr j "subtype" "" = "init"
    · rw [if_pos hi]
      simp [List.count_append]
    · rw [if_neg hi]
      by_cases hres : Json.getStr j "type" "" = "result"
      · rw [if_pos hres]
        by_cases hsub : Json.getStr j "subtype" "" = "success"
        · rw [if_pos hsub]
          simp [List.count_append]
        · rw [if_neg hsub]
          simp [List.count_append]
      · rw [if_neg hres]

theorem appBody_count_sentinel : ∀ (lines : List PLine) (acc : List QItem),
    (lines.foldl (fun acc l =>
      match l with
      | .ok j => appHandleMessage j acc
      | .bad s => if stripStr s ≠ "" then acc ++ [.item "raw" (stripStr s)] else acc) acc).count
        .sentinel = acc.count .sentinel := by
  intro lines
  induction lines with
  | nil => intro acc; rfl
  | cons l ls ih =>
    intro acc
    rw [List.foldl_cons, ih]
    match l with
    | .ok j => exact appHandleMessage_count_sentinel j acc
    | .bad s =>
      by_cases hs : stripStr s ≠ ""
      · simp only [if_pos hs]
        simp [List.count_append]
      · simp only [if_neg hs]

/-- C8: both output reducers — `process_output` in the v2 execution service
and `ProcessManager.process_claude_output` in `src/app.py` — put the `None`
completion sentinel on the message queue exactly once per reduction, as the
final item, for every input line stream (empty, malformed, or interrupted by
a processing exception). -/
theorem reducer_sentinel_exactly_once :
    (∀ (hasIds : Bool) (lines : List PLine) (exc : Option String),
      (processOutput hasIds lines exc).puts.count .sentinel = 1
      ∧ (processOutput hasIds lines exc).puts.getLast? = some .sentinel)
    ∧ (∀ (lines : List PLine) (exc : Option String),
      (appProcessClaudeOutput lines exc).count .sentinel = 1
      ∧ (appProcessClaudeOutput lines exc).getLast? = some .sentinel) := by
  constructor
  · intro hasIds lines exc
    unfold processOutput
    cases exc with
    | none =>
      simp only []
      constructor
      · simp [List.count_append, processStream_count_sentinel]
      · simp [List.getLast?_append]
    | some e =>
      constructor
      · simp [List.count_append, processStream_count_sentinel]
      · simp [List.getLast?_append]
  · intro lines exc
    unfold appProcessClaudeOutput
    have hb := appBody_count_sentinel lines []
    cases exc with
    | none =>
      refine ⟨?_, by simp [List.getLast?_append]⟩
      rw [List.count_append, hb]
      rfl
    | some e =>
      refine ⟨?_, by simp [List.getLast?_append]⟩
      rw [List.count_append, List.count_append, hb]
      simp [List.count_cons, List.count_nil]

end CodeConv

namespace CodeConv

/-! ### Claim theorems: prompt orchestrator -/

theorem targetMapping_lookup_eq (c : String) :
    (targetMapping.lookup c).getD [] = specTargetFiles c := by
  by_cases h1 : c = "plan"
  · subst h1; rfl
  by_cases h2 : c = "analyze"
  · subst h2; rfl
  by_cases h3 : c = "migrate"
  · subst h3; rfl
  by_cases h4 : c = "validate"
  · subst h4; rfl
  by_cases h5 : c = "test"
  · subst h5; rfl
  by_cases h6 : c = "refactor"
  · subst h6; rfl
  by_cases h7 : c = "discuss"
  · subst h7; rfl
  have e1 : (c == "plan") = false := beq_eq_false_iff_ne.mpr h1
  have e2 : (c == "analyze") = false := beq_eq_false_iff_ne.mpr h2
  have e3 : (c == "migrate") = false := beq_eq_false_iff_ne.mpr h3
  have e4 : (c == "validate") = false := beq_eq_false_iff_ne.mpr h4
  have e5 : (c == "test") = false := beq_eq_false_iff_ne.mpr h5
  have e6 : (c == "refactor") = false := beq_eq_false_iff_ne.mpr h6
  have e7 : (c == "discuss") = false := beq_eq_false_iff_ne.mpr h7
  simp [targetMapping, List.lookup, e1, e2, e3, e4, e5, e6, e7,
    specTargetFiles, h1, h2, h3, h4, h5, h6, h7]

theorem fallbackSequence_shape (fs : FS) (a c t : String) :
    (fallbackSequence fs a c t).map (fun p => (p.kind, p.file))
      = specFallbackShape fs a c t := by
  unfold fallbackSequence specFallbackShape
  rw [List.map_append]
  congr 1
  · by_cases hd : fs.pathExists ["prompts", a, c] = true
    · rw [if_pos hd, if_pos hd, List.map_map]
      rfl
    · rw [if_neg hd, if_neg hd]
      rfl
  · rw [← targetMapping_lookup_eq]
    cases hm : targetMapping.lookup c with
    | none => rfl
    | some files =>
      rw [Option.getD_some, List.map_map]
      rfl

/-- C5: whenever the declarative sequence table has no entry for the
normalized (agent, capability) pair, `get_prompt_sequence` returns exactly
the fallback sequence: the existing `*.md` files of the agent/capability
prompts directory in lexicographic order as agent steps, then the target
files given by the fixed capability mapping, restricted to files that exist,
in that order (capabilities outside the mapping contribute no target
steps). -/
theorem fallback_when_no_table_entry (fs : FS) (agent capability target : String)
    (h : (promptSequences.lookup (normKey agent)).bind
      (fun caps => caps.lookup (normKey capability)) = none) :
    (getPromptSequence fs agent capability target).map (fun p => (p.kind, p.file))
      = specFallbackShape fs (normKey agent) (normKey capability) (normTarget target) := by
  cases hA : promptSequences.lookup (normKey agent) with
  | none =>
    simp only [getPromptSequence, hA]
    exact fallbackSequence_shape fs _ _ _
  | some caps =>
    rw [hA, Option.some_bind] at h
    simp only [getPromptSequence, hA, h]
    exact fallbackSequence_shape fs _ _ _

/-- Witness for C5: a concrete agent absent from the table, capability
`plan`, with two agent files and both mapped target files on disk. -/
theorem fallback_when_no_table_entry_witness :
    ((promptSequences.lookup (normKey "custom agent")).bind
      (fun caps => caps.lookup (normKey "plan")) = none)
    ∧ (getPromptSequence
        { pathExists := fun _ => true,
          globMd := fun d => if d = ["prompts", "custom_agent", "plan"]
            then ["b.md", "a.md"] else [] }
        "custom agent" "plan" "rust").map (fun p => (p.kind, p.file))
      = specFallbackShape
        { pathExists := fun _ => true,
          globMd := fun d => if d = ["prompts", "custom_agent", "plan"]
            then ["b.md", "a.md"] else [] }
        (normKey "custom agent") (normKey "plan") (normTarget "rust") :=
  ⟨by decide, fallback_when_no_table_entry _ _ _ _ (by decide)⟩

end CodeConv

namespace CodeConv

theorem validateStep_missing (fs : FS) (agent capability : String)
    (acc : ValidationResult) (target : String) :
    ((validateStep fs agent capability acc target).valid = false ↔
      (acc.valid = false ∨ ∃ p ∈ getPromptSequence fs agent capability target,
        fs.pathExists p.path = false))
    ∧ (validateStep fs agent capability acc target).targets = acc.targets ++
      [(target,
        { totalPrompts := (getPromptSequence fs agent capability target).length,
          missingPrompts := (((getPromptSequence fs agent capability target).filter
            (fun p => !(fs.pathExists p.path))).map (fun p => p.path)),
          foundPrompts := (((getPromptSequence fs agent capability target).filter
            (fun p => fs.pathExists p.path)).map (fun p => p.path)) })] := by
  constructor
  · show (acc.valid && _) = false ↔ _
    rw [Bool.and_eq_false_iff]
    constructor
    · rintro (h | h)
      · exact Or.inl h
      · refine Or.inr ?_
        rw [List.isEmpty_eq_false_iff_exists_mem] at h
        obtain ⟨x, hx⟩ := h
        rw [List.mem_map] at hx
        obtain ⟨p, hp, -⟩ := hx
        rw [List.mem_filter] at hp
        exact ⟨p, hp.1, by simpa using hp.2⟩
    · rintro (h | ⟨p, hp, hmiss⟩)
      · exact Or.inl h
      · refine Or.inr ?_
        rw [List.isEmpty_eq_false_iff_exists_mem]
        refine ⟨p.path, List.mem_map.mpr ⟨p, List.mem_filter.mpr ⟨hp, by simpa using hmiss⟩, rfl⟩⟩
  · rfl

theorem validateOrchestration_foldl (fs : FS) (agent capability : String) :
    ∀ (targets : List String) (acc : ValidationResult),
      ((targets.foldl (validateStep fs agent capability) acc).valid = false ↔
        (acc.valid = false ∨ ∃ t ∈ targets,
          ∃ p ∈ getPromptSequence fs agent capability t, fs.pathExists p.path = false))
      ∧ (targets.foldl (validateStep fs agent capability) acc).targets
        = acc.targets ++ targets.map (fun t =>
          (t, { totalPrompts := (getPromptSequence fs agent capability t).length,
                missingPrompts := (((getPromptSequence fs agent capability t).filter
                  (fun p => !(fs.pathExists p.path))).map (fun p => p.path)),
                foundPrompts := (((getPromptSequence fs agent capability t).filter
                  (fun p => fs.pathExists p.path)).map (fun p => p.path)) })) := by
  intro targets
  induction targets with
  | nil =>
    intro acc
    simp
  | cons t ts ih =>
    intro acc
    rw [List.foldl_cons]
    obtain ⟨ihv, iht⟩ := ih (validateStep fs agent capability acc t)
    obtain ⟨sv, stg⟩ := validateStep_missing fs agent capability acc t
    constructor
    · rw [ihv, sv]
      constructor
      · rintro ((h | h) | ⟨u, hu, hp⟩)
        · exact Or.inl h
        · exact Or.inr ⟨t, by simp, h⟩
        · exact Or.inr ⟨u, by simp [hu], hp⟩
      · rintro (h | ⟨u, hu, hp⟩)
        · exact Or.inl (Or.inl h)
        · rcases List.mem_cons.mp hu with rfl | hu
          · exact Or.inl (Or.inr hp)
          · exact Or.inr ⟨u, hu, hp⟩
    · rw [iht, stg]
      simp

/-- C9: `validate_orchestration` reports, for every target in the list, the
resolved sequence's found prompt paths and missing prompt paths (and its
total prompt count), and the overall `valid` flag is `false` exactly when at
least one prompt of some target's resolved sequence does not exist on
disk. -/
theorem validate_orchestration_reports (fs : FS) (agent capability : String)
    (targets : List String) :
    ((validateOrchestration fs agent capability targets).valid = false ↔
      ∃ t ∈ targets, ∃ p ∈ getPromptSequence fs agent capability t,
        fs.pathExists p.path = false)
    ∧ (validateOrchestration fs agent capability targets).targets
      = targets.map (fun t =>
          (t, { totalPrompts := (getPromptSequence fs agent capability t).length,
                missingPrompts := (((getPromptSequence fs agent capability t).filter
                  (fun p => !(fs.pathExists p.path))).map (fun p => p.path)),
                foundPrompts := (((getPromptSequence fs agent capability t).filter
                  (fun p => fs.pathExists p.path)).map (fun p => p.path)) })) := by
  obtain ⟨hv, ht⟩ := validateOrchestration_foldl fs agent capability targets
    { agent := agent, capability := capability, valid := true, targets := [] }
  constructor
  · rw [show validateOrchestration fs agent capability targets
      = targets.foldl (validateStep fs agent capability)
        { agent := agent, capability := capability, valid := true, targets := [] } from rfl]
    rw [hv]
    simp
  · rw [show validateOrchestration fs agent capability targets
      = targets.foldl (validateStep fs agent capability)
        { agent := agent, capability := capability, valid := true, targets := [] } from rfl]
    rw [ht]
    rfl

end CodeConv

namespace CodeConv

/-! ### Claim theorems: task execution -/

theorem addTaskLog_frame (st : Store) (jobId stageId : String) (taskIndex : Nat)
    (level msg k : String) (hk : k ≠ taskKey jobId stageId taskIndex) :
    addTaskLog st jobId stageId taskIndex level msg k = st k := by
  unfold addTaskLog storeSet
  rw [if_neg hk]

theorem addTaskLog_at_key (st : Store) (jobId stageId : String) (taskIndex : Nat)
    (level msg : String) :
    addTaskLog st jobId stageId taskIndex level msg (taskKey jobId stageId taskIndex)
      = bufAppend (st (taskKey jobId stageId taskIndex)) ⟨level, msg⟩ := by
  unfold addTaskLog storeSet
  rw [if_pos rfl]

theorem foldl_addTaskLog_frame (jobId stageId : String) (taskIndex : Nat) (k : String)
    (hk : k ≠ taskKey jobId stageId taskIndex) :
    ∀ (plogs : List (String × String)) (st : Store),
      (plogs.foldl (fun acc lm => addTaskLog acc jobId stageId taskIndex lm.1 lm.2) st) k
        = st k := by
  intro plogs
  induction plogs with
  | nil => intro st; rfl
  | cons lm plogs ih =>
    intro st
    rw [List.foldl_cons, ih]
    exact addTaskLog_frame st jobId stageId taskIndex lm.1 lm.2 k hk

theorem foldl_addTaskLog_congr (jobId stageId : String) (taskIndex : Nat) :
    ∀ (plogs : List (String × String)) (st st2 : Store),
      st (taskKey jobId stageId taskIndex) = st2 (taskKey jobId stageId taskIndex) →
      (plogs.foldl (fun acc lm => addTaskLog acc jobId stageId taskIndex lm.1 lm.2) st)
          (taskKey jobId stageId taskIndex)
        = (plogs.foldl (fun acc lm => addTaskLog acc jobId stageId taskIndex lm.1 lm.2) st2)
          (taskKey jobId stageId taskIndex) := by
  intro plogs
  induction plogs with
  | nil => intro st st2 h; exact h
  | cons lm plogs ih =>
    intro st st2 h
    rw [List.foldl_cons, List.foldl_cons]
    refine ih _ _ ?_
    rw [addTaskLog_at_key, addTaskLog_at_key, h]

theorem runPromptLoop_frame
    (exec : PromptInfo → List (String × String) → PromptResult × List (String × String))
    (jobId stageId : String) (taskIndex : Nat) (jobCtx : List (String × String))
    (total : Nat) (k : String) (hk : k ≠ taskKey jobId stageId taskIndex) :
    ∀ (seq : List PromptInfo) (i : Nat) (st : Store),
      (runPromptLoop exec jobId stageId taskIndex jobCtx total i st seq).2.2.1 k = st k := by
  intro seq
  induction seq with
  | nil => intro i st; rfl
  | cons info rest ih =>
    intro i st
    rw [runPromptLoop]
    by_cases hres : (exec info (enhancedCtx jobCtx info)).1.status = "error"
    · simp only [hres, if_true, if_pos]
      rw [addTaskLog_frame _ _ _ _ _ _ _ hk,
        foldl_addTaskLog_frame _ _ _ _ hk,
        addTaskLog_frame _ _ _ _ _ _ _ hk]
    · simp only [hres, if_false, if_neg, ite_false]
      rw [ih]
      rw [addTaskLog_frame _ _ _ _ _ _ _ hk,
        foldl_addTaskLog_frame _ _ _ _ hk,
        addTaskLog_frame _ _ _ _ _ _ _ hk]

theorem runPromptLoop_congr
    (exec : PromptInfo → List (String × String) → PromptResult × List (String × String))
    (jobId stageId : String) (taskIndex : Nat) (jobCtx : List (String × String))
    (total : Nat) :
    ∀ (seq : List PromptInfo) (i : Nat) (st st2 : Store),
      st (taskKey jobId stageId taskIndex) = st2 (taskKey jobId stageId taskIndex) →
      (runPromptLoop exec jobId stageId taskIndex jobCtx total i st seq).1
        = (runPromptLoop exec jobId stageId taskIndex jobCtx total i st2 seq).1
      ∧ (runPromptLoop exec jobId stageId taskIndex jobCtx total i st seq).2.1
        = (runPromptLoop exec jobId stageId taskIndex jobCtx total i st2 seq).2.1
      ∧ (runPromptLoop exec jobId stageId taskIndex jobCtx total i st seq).2.2.2
        = (runPromptLoop exec jobId stageId taskIndex jobCtx total i st2 seq).2.2.2
      ∧ (runPromptLoop exec jobId stageId taskIndex jobCtx total i st seq).2.2.1
          (taskKey jobId stageId taskIndex)
        = (runPromptLoop exec jobId stageId taskIndex jobCtx total i st2 seq).2.2.1
          (taskKey jobId stageId taskIndex) := by
  intro seq
  induction seq with
  | nil => intro i st st2 h; exact ⟨rfl, rfl, rfl, h⟩
  | cons info rest ih =>
    intro i st st2 h
    rw [runPromptLoop, runPromptLoop]
    have hstep : ∀ (l m : String) (su sv : Store),
        su (taskKey jobId stageId taskIndex) = sv (taskKey jobId stageId taskIndex) →
        addTaskLog su jobId stageId taskIndex l m (taskKey jobId stageId taskIndex)
          = addTaskLog sv jobId stageId taskIndex l m (taskKey jobId stageId taskIndex) := by
      intro l m su sv hsv
      rw [addTaskLog_at_key, addTaskLog_at_key, hsv]
    have h1 : (addTaskLog st jobId stageId taskIndex "info"
          ("Executing prompt " ++ toString (i + 1) ++ "/" ++ toString total ++ ": " ++ info.file))
          (taskKey jobId stageId taskIndex)
        = (addTaskLog st2 jobId stageId taskIndex "info"
          ("Executing prompt " ++ toString (i + 1) ++ "/" ++ toString total ++ ": " ++ info.file))
          (taskKey jobId stageId taskIndex) := hstep _ _ _ _ h
    have h2 := foldl_addTaskLog_congr jobId stageId taskIndex
      (exec info (enhancedCtx jobCtx info)).2 _ _ h1
    by_cases hres : (exec info (enhancedCtx jobCtx info)).1.status = "error"
    · simp only [hres, if_true, if_pos]
      refine ⟨by first | rfl | trivial, by first | rfl | trivial,
        by first | rfl | trivial, hstep _ _ _ _ h2⟩
    · simp only [hres, if_false, ite_false]
      obtain ⟨e1, e2, e3, e4⟩ := ih (i + 1) _ _ (hstep _ _ _ _ h2)
      exact ⟨by rw [e1], by rw [e2], by rw [e3], e4⟩

end CodeConv

namespace CodeConv

theorem runPromptLoop_stops_after_second
    (exec : PromptInfo → List (String × String) → PromptResult × List (String × String))
    (jobId stageId : String) (taskIndex : Nat) (jobCtx : List (String × String))
    (total : Nat) (s1 s2 : PromptInfo) (rest : List PromptInfo)
    (h1 : (exec s1 (enhancedCtx jobCtx s1)).1.status ≠ "error")
    (h2 : (exec s2 (enhancedCtx jobCtx s2)).1.status = "error")
    (i : Nat) (st : Store) :
    (runPromptLoop exec jobId stageId taskIndex jobCtx total i st (s1 :: s2 :: rest)).1
      = [(exec s1 (enhancedCtx jobCtx s1)).1, (exec s2 (enhancedCtx jobCtx s2)).1]
    ∧ (runPromptLoop exec jobId stageId taskIndex jobCtx total i st (s1 :: s2 :: rest)).2.1
      = "error"
    ∧ (runPromptLoop exec jobId stageId taskIndex jobCtx total i st
        (s1 :: s2 :: rest)).2.2.2 = [s1, s2] := by
  rw [runPromptLoop]
  simp only [if_neg h1, ite_false]
  rw [runPromptLoop]
  simp only [if_pos h2, ite_true, h2]
  refine ⟨by first | rfl | trivial, by first | rfl | trivial, by first | rfl | trivial⟩

/-- C1: `execute_task` runs the resolved prompt steps in order and stops at
the first step whose result has status `error`: for a resolved 3-step
sequence where step 1 succeeds and step 2 fails, exactly 2 prompt results are
recorded in the execution record (not 3), step 3 is never handed to the
per-prompt executor, and the record's overall status is `error`. -/
theorem execute_task_fail_fast (fs : FS)
    (exec : PromptInfo → List (String × String) → PromptResult × List (String × String))
    (jobId stageId nowStr : String) (taskIndex : Nat) (task : TaskSpec)
    (jobCtx : List (String × String)) (st : Store) (s1 s2 s3 : PromptInfo)
    (hseq : getPromptSequence fs (normKey task.agent) (normKey task.name)
      (lowerStr ((jobCtx.lookup "target_name").getD "")) = [s1, s2, s3])
    (h1 : (exec s1 (enhancedCtx jobCtx s1)).1.status ≠ "error")
    (h2 : (exec s2 (enhancedCtx jobCtx s2)).1.status = "error") :
    (executeTask fs exec jobId stageId taskIndex task jobCtx nowStr st).record.promptResults
      = [(exec s1 (enhancedCtx jobCtx s1)).1, (exec s2 (enhancedCtx jobCtx s2)).1]
    ∧ (executeTask fs exec jobId stageId taskIndex task jobCtx nowStr st).record.status
      = "error"
    ∧ (executeTask fs exec jobId stageId taskIndex task jobCtx nowStr st).attempted
      = [s1, s2] := by
  have L := runPromptLoop_stops_after_second exec jobId stageId taskIndex
    jobCtx ([s1, s2, s3] : List PromptInfo).length s1 s2 [s3] h1 h2 0
  simp only [executeTask, hseq, List.isEmpty_cons, Bool.false_eq_true, if_false,
    executeTaskMain]
  exact ⟨(L _).1, (L _).2.1, (L _).2.2⟩

/-- Witness for C1: a fallback-resolved 3-step sequence (one agent file plus
the two mapped target files for capability `plan`) where the second step
fails. -/
theorem execute_task_fail_fast_witness :
    (getPromptSequence
        { pathExists := fun _ => true,
          globMd := fun d => if d = ["prompts", "zz", "plan"] then ["a.md"] else [] }
        (normKey "zz") (normKey "plan")
        (lowerStr ((([("target_name", "rust")] :
          List (String × String)).lookup "target_name").getD ""))
      = [{ kind := .agent, path := ["prompts", "zz", "plan", "a.md"], file := "a.md",
            purpose := "Agent-specific task", agent := "zz", capability := "plan" },
         { kind := .target, path := ["prompts", "targets", "rust", "01_analyze.md"],
            file := "01_analyze.md", purpose := "Target-specific implementation",
            target := "rust" },
         { kind := .target, path := ["prompts", "targets", "rust", "02_plan.md"],
            file := "02_plan.md", purpose := "Target-specific implementation",
            target := "rust" }])
    ∧ (executeTask
        { pathExists := fun _ => true,
          globMd := fun d => if d = ["prompts", "zz", "plan"] then ["a.md"] else [] }
        (fun info _ => (⟨info.file,
            if info.file = "01_analyze.md" then "error" else "success", "out",
            if info.file = "01_analyze.md" then "boom" else ""⟩, []))
        "j" "s" 0 ⟨"zz", "plan"⟩ [("target_name", "rust")] "T"
        (fun _ => [])).record.status = "error"
    ∧ (executeTask
        { pathExists := fun _ => true,
          globMd := fun d => if d = ["prompts", "zz", "plan"] then ["a.md"] else [] }
        (fun info _ => (⟨info.file,
            if info.file = "01_analyze.md" then "error" else "success", "out",
            if info.file = "01_analyze.md" then "boom" else ""⟩, []))
        "j" "s" 0 ⟨"zz", "plan"⟩ [("target_name", "rust")] "T"
        (fun _ => [])).record.promptResults.length = 2 := by
  have T := execute_task_fail_fast
    { pathExists := fun _ => true,
      globMd := fun d => if d = ["prompts", "zz", "plan"] then ["a.md"] else [] }
    (fun info _ => (⟨info.file,
        if info.file = "01_analyze.md" then "error" else "success", "out",
        if info.file = "01_analyze.md" then "boom" else ""⟩, []))
    "j" "s" "T" 0 ⟨"zz", "plan"⟩ [("target_name", "rust")] (fun _ => [])
    { kind := .agent, path := ["prompts", "zz", "plan", "a.md"], file := "a.md",
      purpose := "Agent-specific task", agent := "zz", capability := "plan" }
    { kind := .target, path := ["prompts", "targets", "rust", "01_analyze.md"],
      file := "01_analyze.md", purpose := "Target-specific implementation",
      target := "rust" }
    { kind := .target, path := ["prompts", "targets", "rust", "02_plan.md"],
      file := "02_plan.md", purpose := "Target-specific implementation",
      target := "rust" }
    (by decide) (by decide) (by decide)
  refine ⟨by decide, T.2.1, ?_⟩
  rw [T.1]
  rfl

theorem append_ne_empty (s t : String) (h : s ≠ "") : s ++ t ≠ "" := by
  intro he
  apply h
  have hlen := congrArg String.length he
  rw [String.length_append] at hlen
  have : s.length = 0 := by
    have : ("" : String).length = 0 := rfl
    omega
  cases s with
  | mk data =>
    cases data with
    | nil => rfl
    | cons c cs => simp [String.length, List.length] at this

/-- C2: when the resolved prompt sequence is empty and the agent/capability
prompt directory holds no `*.md` files, `execute_task` returns an execution
record with status `error` and a non-empty error message, and no prompt is
ever handed to the per-prompt executor (hence no subprocess is spawned). -/
theorem execute_task_empty_sequence (fs : FS)
    (exec : PromptInfo → List (String × String) → PromptResult × List (String × String))
    (jobId stageId nowStr : String) (taskIndex : Nat) (task : TaskSpec)
    (jobCtx : List (String × String)) (st : Store)
    (hseq : getPromptSequence fs (normKey task.agent) (normKey task.name)
      (lowerStr ((jobCtx.lookup "target_name").getD "")) = [])
    (hfiles : fs.globMd ["prompts", normKey task.agent, normKey task.name] = []) :
    (executeTask fs exec jobId stageId taskIndex task jobCtx nowStr st).record.status
      = "error"
    ∧ (executeTask fs exec jobId stageId taskIndex task jobCtx nowStr st).record.error ≠ ""
    ∧ (executeTask fs exec jobId stageId taskIndex task jobCtx nowStr st).attempted = [] := by
  simp only [executeTask, hseq, hfiles, List.isEmpty_nil, if_true]
  by_cases hd : fs.pathExists ["prompts", normKey task.agent, normKey task.name] = true
  · simp only [hd, Bool.not_true, Bool.false_eq_true, if_false, sortStrs, List.isEmpty_nil,
      if_true]
    refine ⟨by first | rfl | trivial, ?_, by first | rfl | trivial⟩
    exact append_ne_empty _ _ (append_ne_empty _ _ (append_ne_empty _ _ (by decide)))
  · rw [Bool.not_eq_true] at hd
    simp only [hd, Bool.not_false, if_true]
    refine ⟨by first | rfl | trivial, ?_, by first | rfl | trivial⟩
    exact append_ne_empty _ _ (append_ne_empty _ _ (append_ne_empty _ _ (by decide)))

/-- Witness for C2 with an empty file system. -/
theorem execute_task_empty_sequence_witness :
    (getPromptSequence { pathExists := fun _ => false, globMd := fun _ => [] }
      (normKey "ghost") (normKey "mystery")
      (lowerStr ((([] : List (String × String)).lookup "target_name").getD "")) = [])
    ∧ (executeTask { pathExists := fun _ => false, globMd := fun _ => [] }
        (fun info _ => (⟨info.file, "success", "", ""⟩, []))
        "j" "s" 0 ⟨"ghost", "mystery"⟩ [] "T" (fun _ => [])).record.status = "error"
    ∧ (executeTask { pathExists := fun _ => false, globMd := fun _ => [] }
        (fun info _ => (⟨info.file, "success", "", ""⟩, []))
        "j" "s" 0 ⟨"ghost", "mystery"⟩ [] "T" (fun _ => [])).attempted = [] :=
  ⟨by decide,
   (execute_task_empty_sequence _ _ "j" "s" "T" 0 ⟨"ghost", "mystery"⟩ [] _
     (by decide) (by decide)).1,
   (execute_task_empty_sequence _ _ "j" "s" "T" 0 ⟨"ghost", "mystery"⟩ [] _
     (by decide) (by decide)).2.2⟩

end CodeConv

namespace CodeConv

theorem executeTaskMain_frame
    (exec : PromptInfo → List (String × String) → PromptResult × List (String × String))
    (executionId jobId stageId : String) (taskIndex : Nat) (agentName capability : String)
    (task : TaskSpec) (jobCtx : List (String × String)) (st : Store)
    (seq : List PromptInfo) (k : String) (hk : k ≠ taskKey jobId stageId taskIndex) :
    (executeTaskMain exec executionId jobId stageId taskIndex agentName capability
      task jobCtx st seq).store k = st k := by
  simp only [executeTaskMain]
  by_cases ho : (runPromptLoop exec jobId stageId taskIndex jobCtx seq.length 0
      (addTaskLog (addTaskLog (addTaskLog (storeSet st (taskKey jobId stageId taskIndex) [])
        jobId stageId taskIndex "info" ("Starting execution of " ++ task.name))
        jobId stageId taskIndex "info" ("Agent: " ++ agentName ++ ", Capability: " ++ capability))
        jobId stageId taskIndex "info"
        ("Found " ++ toString seq.length ++ " prompts to execute")) seq).2.1 = "success"
  · simp only [ho, if_true, if_pos]
    rw [addTaskLog_frame _ _ _ _ _ _ _ hk,
      runPromptLoop_frame _ _ _ _ _ _ _ hk,
      addTaskLog_frame _ _ _ _ _ _ _ hk,
      addTaskLog_frame _ _ _ _ _ _ _ hk,
      addTaskLog_frame _ _ _ _ _ _ _ hk]
    unfold storeSet
    rw [if_neg hk]
  · simp only [ho, if_false, ite_false]
    rw [addTaskLog_frame _ _ _ _ _ _ _ hk,
      runPromptLoop_frame _ _ _ _ _ _ _ hk,
      addTaskLog_frame _ _ _ _ _ _ _ hk,
      addTaskLog_frame _ _ _ _ _ _ _ hk,
      addTaskLog_frame _ _ _ _ _ _ _ hk]
    unfold storeSet
    rw [if_neg hk]

theorem executeTaskMain_store_congr
    (exec : PromptInfo → List (String × String) → PromptResult × List (String × String))
    (executionId jobId stageId : String) (taskIndex : Nat) (agentName capability : String)
    (task : TaskSpec) (jobCtx : List (String × String)) (st st2 : Store)
    (seq : List PromptInfo) :
    (executeTaskMain exec executionId jobId stageId taskIndex agentName capability
        task jobCtx st seq).store (taskKey jobId stageId taskIndex)
      = (executeTaskMain exec executionId jobId stageId taskIndex agentName capability
        task jobCtx st2 seq).store (taskKey jobId stageId taskIndex) := by
  simp only [executeTaskMain]
  have hstep : ∀ (l m : String) (su sv : Store),
      su (taskKey jobId stageId taskIndex) = sv (taskKey jobId stageId taskIndex) →
      addTaskLog su jobId stageId taskIndex l m (taskKey jobId stageId taskIndex)
        = addTaskLog sv jobId stageId taskIndex l m (taskKey jobId stageId taskIndex) := by
    intro l m su sv hsv
    rw [addTaskLog_at_key, addTaskLog_at_key, hsv]
  have h0 : storeSet st (taskKey jobId stageId taskIndex) []
        (taskKey jobId stageId taskIndex)
      = storeSet st2 (taskKey jobId stageId taskIndex) []
        (taskKey jobId stageId taskIndex) := by
    unfold storeSet
    rw [if_pos rfl, if_pos rfl]
  have h1x := hstep "info" ("Starting execution of " ++ task.name) _ _ h0
  have h2x := hstep "info" ("Agent: " ++ agentName ++ ", Capability: " ++ capability) _ _ h1x
  have h3x := hstep "info" ("Found " ++ toString seq.length ++ " prompts to execute") _ _ h2x
  obtain ⟨e1, e2, e3, e4⟩ := runPromptLoop_congr exec jobId stageId taskIndex jobCtx
    seq.length seq 0 _ _ h3x
  rw [e2]
  by_cases hsucc : (runPromptLoop exec jobId stageId taskIndex jobCtx seq.length 0
      (addTaskLog (addTaskLog (addTaskLog (storeSet st2 (taskKey jobId stageId taskIndex) [])
        jobId stageId taskIndex "info" ("Starting execution of " ++ task.name))
        jobId stageId taskIndex "info" ("Agent: " ++ agentName ++ ", Capability: " ++ capability))
        jobId stageId taskIndex "info"
        ("Found " ++ toString seq.length ++ " prompts to execute")) seq).2.1 = "success"
  · simp only [hsucc, if_true, if_pos, e1]
    exact hstep "info"
      ("Task completed successfully! Executed " ++
        toString (runPromptLoop exec jobId stageId taskIndex jobCtx seq.length 0
          (addTaskLog (addTaskLog (addTaskLog
            (storeSet st2 (taskKey jobId stageId taskIndex) [])
            jobId stageId taskIndex "info" ("Starting execution of " ++ task.name))
            jobId stageId taskIndex "info"
            ("Agent: " ++ agentName ++ ", Capability: " ++ capability))
            jobId stageId taskIndex "info"
            ("Found " ++ toString seq.length ++ " prompts to execute")) seq).1.length
        ++ " prompts.") _ _ e4
  · simp only [hsucc, if_false, ite_false]
    exact hstep "error" "Task failed. Check errors above." _ _ e4

end CodeConv

namespace CodeConv

/-- C10 counterexample: when `execute_task` takes the early no-prompts error
return, the log buffer of the task key is left untouched rather than reset,
so `get_task_logs` still returns entries from a previous execution: at the
concrete input below, the post-execution buffer depends on the prior buffer
contents, which the claimed reset-at-start behaviour forbids. -/
theorem execute_task_stale_logs :
    ((executeTask { pathExists := fun _ => false, globMd := fun _ => [] }
        (fun info _ => (⟨info.file, "success", "", ""⟩, []))
        "j" "s" 0 ⟨"zz", "plan"⟩ [] "T"
        (fun k => if k = "j_s_0" then [⟨"info", "old"⟩] else [])).store "j_s_0"
      = [⟨"info", "old"⟩])
    ∧ ((executeTask { pathExists := fun _ => false, globMd := fun _ => [] }
        (fun info _ => (⟨info.file, "success", "", ""⟩, []))
        "j" "s" 0 ⟨"zz", "plan"⟩ [] "T" (fun _ => [])).store "j_s_0" = [])
    ∧ (executeTask { pathExists := fun _ => false, globMd := fun _ => [] }
        (fun info _ => (⟨info.file, "success", "", ""⟩, []))
        "j" "s" 0 ⟨"zz", "plan"⟩ [] "T"
        (fun k => if k = "j_s_0" then [⟨"info", "old"⟩] else [])).store "j_s_0"
      ≠ (executeTask { pathExists := fun _ => false, globMd := fun _ => [] }
        (fun info _ => (⟨info.file, "success", "", ""⟩, []))
        "j" "s" 0 ⟨"zz", "plan"⟩ [] "T" (fun _ => [])).store "j_s_0" := by
  refine ⟨by decide, by decide, by decide⟩

/-- C10 amended: `execute_task` never modifies the log buffer of any other
task key, and whenever it does not take the early no-prompts error return it
resets its own task key's buffer before logging, so the post-execution
buffer of that key is independent of its prior contents; but on the early
no-prompts error return the buffer is left unchanged, possibly holding
entries of a previous execution (see the counterexample). -/
theorem execute_task_log_reset_and_frame (fs : FS)
    (exec : PromptInfo → List (String × String) → PromptResult × List (String × String))
    (jobId stageId nowStr : String) (taskIndex : Nat) (task : TaskSpec)
    (jobCtx : List (String × String)) :
    (∀ (st : Store) (k : String), k ≠ taskKey jobId stageId taskIndex →
      (executeTask fs exec jobId stageId taskIndex task jobCtx nowStr st).store k = st k)
    ∧ (noPromptsExit fs task jobCtx = false →
      ∀ (st st2 : Store),
        (executeTask fs exec jobId stageId taskIndex task jobCtx nowStr st).store
            (taskKey jobId stageId taskIndex)
          = (executeTask fs exec jobId stageId taskIndex task jobCtx nowStr st2).store
            (taskKey jobId stageId taskIndex)) := by
  constructor
  · intro st k hk
    simp only [executeTask]
    by_cases hempty : (getPromptSequence fs (normKey task.agent) (normKey task.name)
        (lowerStr ((jobCtx.lookup "target_name").getD ""))).isEmpty = true
    · simp only [hempty, if_true, if_pos]
      by_cases hdir : fs.pathExists ["prompts", normKey task.agent, normKey task.name] = true
      · simp only [hdir, Bool.not_true, Bool.false_eq_true, if_false]
        by_cases hfiles : (sortStrs
            (fs.globMd ["prompts", normKey task.agent, normKey task.name])).isEmpty = true
        · simp only [hfiles, if_true, if_pos]
        · simp only [hfiles, if_false, ite_false]
          exact executeTaskMain_frame _ _ _ _ _ _ _ _ _ _ _ _ hk
      · rw [Bool.not_eq_true] at hdir
        simp only [hdir, Bool.not_false, if_true]
    · simp only [hempty, if_false, ite_false]
      exact executeTaskMain_frame _ _ _ _ _ _ _ _ _ _ _ _ hk
  · intro hexit st st2
    unfold noPromptsExit at hexit
    rw [Bool.and_eq_false_iff] at hexit
    simp only [executeTask]
    by_cases hempty : (getPromptSequence fs (normKey task.agent) (normKey task.name)
        (lowerStr ((jobCtx.lookup "target_name").getD ""))).isEmpty = true
    · simp only [hempty, if_true, if_pos]
      rcases hexit with hexit | hexit
      · exact absurd hempty (by simp [hexit])
      · rw [Bool.or_eq_false_iff] at hexit
        obtain ⟨hdir, hfiles⟩ := hexit
        rw [Bool.not_eq_false'] at hdir
        simp only [hdir, Bool.not_true, Bool.false_eq_true, if_false, hfiles, ite_false]
        exact executeTaskMain_store_congr _ _ _ _ _ _ _ _ _ _ _ _
    · simp only [hempty, if_false, ite_false]
      exact executeTaskMain_store_congr _ _ _ _ _ _ _ _ _ _ _ _

/-- Witness for the amended C10: the frame and independence parts applied at
a concrete execution with prompts present. -/
theorem execute_task_log_reset_and_frame_witness :
    ((executeTask
        { pathExists := fun _ => true,
          globMd := fun d => if d = ["prompts", "zz", "plan"] then ["a.md"] else [] }
        (fun info _ => (⟨info.file, "success", "out", ""⟩, []))
        "j" "s" 0 ⟨"zz", "plan"⟩ [("target_name", "rust")] "T"
        (fun k => if k = "other" then [⟨"info", "keep"⟩] else [])).store "other"
      = [⟨"info", "keep"⟩])
    ∧ (noPromptsExit
        { pathExists := fun _ => true,
          globMd := fun d => if d = ["prompts", "zz", "plan"] then ["a.md"] else [] }
        ⟨"zz", "plan"⟩ [("target_name", "rust")] = false)
    ∧ ((executeTask
        { pathExists := fun _ => true,
          globMd := fun d => if d = ["prompts", "zz", "plan"] then ["a.md"] else [] }
        (fun info _ => (⟨info.file, "success", "out", ""⟩, []))
        "j" "s" 0 ⟨"zz", "plan"⟩ [("target_name", "rust")] "T"
        (fun k => if k = "j_s_0" then [⟨"info", "stale"⟩] else [])).store "j_s_0"
      = (executeTask
        { pathExists := fun _ => true,
          globMd := fun d => if d = ["prompts", "zz", "plan"] then ["a.md"] else [] }
        (fun info _ => (⟨info.file, "success", "out", ""⟩, []))
        "j" "s" 0 ⟨"zz", "plan"⟩ [("target_name", "rust")] "T"
        (fun _ => [])).store "j_s_0") := by
  refine ⟨?_, by decide, ?_⟩
  · have := (execute_task_log_reset_and_frame
      { pathExists := fun _ => true,
        globMd := fun d => if d = ["prompts", "zz", "plan"] then ["a.md"] else [] }
      (fun info _ => (⟨info.file, "success", "out", ""⟩, []))
      "j" "s" "T" 0 ⟨"zz", "plan"⟩ [("target_name", "rust")]).1
      (fun k => if k = "other" then [⟨"info", "keep"⟩] else []) "other" (by decide)
    rw [this]
    decide
  · exact (execute_task_log_reset_and_frame
      { pathExists := fun _ => true,
        globMd := fun d => if d = ["prompts", "zz", "plan"] then ["a.md"] else [] }
      (fun info _ => (⟨info.file, "success", "out", ""⟩, []))
      "j" "s" "T" 0 ⟨"zz", "plan"⟩ [("target_name", "rust")]).2 (by decide)
      (fun k => if k = "j_s_0" then [⟨"info", "stale"⟩] else []) (fun _ => [])

/-- C3 counterexample: `ExecutionService.execute_task` performs no task-level
retry at all: at the concrete input below, with a one-step resolved sequence
whose execution fails, the per-prompt executor is invoked exactly once (no
second or third attempt, no back-off sleep) and the error record is returned
immediately. -/
theorem execute_task_no_retry :
    ((executeTask
        { pathExists := fun _ => true,
          globMd := fun d => if d = ["prompts", "zz", "unmapped_cap"] then ["a.md"] else [] }
        (fun info _ => (⟨info.file, "error", "", "exception during execution"⟩, []))
        "j" "s" 0 ⟨"zz", "unmapped cap"⟩ [] "T" (fun _ => [])).attempted.length = 1)
    ∧ ((executeTask
        { pathExists := fun _ => true,
          globMd := fun d => if d = ["prompts", "zz", "unmapped_cap"] then ["a.md"] else [] }
        (fun info _ => (⟨info.file, "error", "", "exception during execution"⟩, []))
        "j" "s" 0 ⟨"zz", "unmapped cap"⟩ [] "T" (fun _ => [])).record.status = "error") := by
  refine ⟨by decide, by decide⟩

end CodeConv
